import Mathlib

set_option maxHeartbeats 1000000

/-!
Shallow embedding of the xcf package (xcf.go), a decoder for GIMP XCF files
supporting RGB/RGBA layers and RLE-compressed tile data.

Modelling conventions:
* The Go io.ReadSeeker is a byte list together with a cursor (structure File).
  readN delivers exactly n bytes or fails, which matches the io.ReadFull
  semantics used by binary.Read.  decodeRLE and readString instead issue bare
  Read calls and ignore the returned byte count; on the readers this package
  runs on (os.File via LoadFromFile, bytes.Reader) a bare Read serves partial
  data with a NIL error whenever at least one byte remains, failing only on a
  fully exhausted source.  bareRead/decodeRLEGoAux model that behaviour
  exactly; the idealized all-or-error decodeRLEAux and readString agree with
  it on every stream that contains all the bytes the code asks for, and
  differ precisely on truncated streams (the subject of claim C5).
* Machine integers are Nat; uint32 overflow is written explicitly as
  `% 4294967296` exactly where the Go code performs wrapping arithmetic.
* A Go runtime panic from an out-of-range slice index (reachable inside
  decodeRLE when an opcode overshoots the destination) is a distinct outcome
  constructor, separate from the error return.
* byte buffers that are written through indices (image.RGBA.Pix) are modelled
  as total functions Nat → Nat updated pointwise, exactly following the order
  of the Go assignments.
-/

/-- A seekable byte stream: the underlying bytes and the read cursor. -/
structure File where
  data : List Nat
  pos : Nat
deriving Repr, DecidableEq

/-- The bytes remaining from the cursor to the end of the stream. -/
def File.rem (f : File) : List Nat := f.data.drop f.pos

/-- Read exactly n bytes, advancing the cursor; fails when fewer than n bytes
remain (io.ReadFull semantics).  Reading zero bytes always succeeds, matching
Go's Read on an empty buffer. -/
def readN (f : File) (n : Nat) : Option (List Nat × File) :=
  if n = 0 then some ([], f)
  else if f.pos + n ≤ f.data.length then
    some ((f.data.drop f.pos).take n, ⟨f.data, f.pos + n⟩)
  else none

/-- Absolute seek (whence 0), as used by loadLayer and readImageData. -/
def seekTo (f : File) (off : Nat) : File := ⟨f.data, off⟩

/-- Big-endian value of a byte list (binary.BigEndian). -/
def beVal (bs : List Nat) : Nat := bs.foldl (fun a b => a * 256 + b) 0

/-- Big-endian uint32 field at byte offset i of a buffer. -/
def u32At (bs : List Nat) (i : Nat) : Nat := beVal ((bs.drop i).take 4)

/-- Read one byte. -/
def readU8 (f : File) : Option (Nat × File) :=
  (readN f 1).map (fun p => (p.1.headD 0, p.2))

/-- Read a big-endian uint32. -/
def readU32 (f : File) : Option (Nat × File) :=
  (readN f 4).map (fun p => (beVal p.1, p.2))

/-- Reinterpret a uint32 bit pattern as a signed int32 (binary.Read into a Go
int32). -/
def toI32 (n : Nat) : Int :=
  if n < 2147483648 then (n : Int) else (n : Int) - 4294967296

/-- Outcome of decodeRLE: success with the bytes produced (the destination
contents, in order) and the stream after decoding, an io error from the
source, or a Go runtime panic from writing or slicing out of range. -/
inductive RLERes where
  | ok (out : List Nat) (f : File)
  | ioError
  | panic
deriving Repr, DecidableEq

/-- The loop body of decodeRLE (xcf.go lines 454-505).  `destLen` is
len(dest), `cap` is cap(dest) (at the call site in readImageData the
destination is buffer[:destByteCount] with capacity 64*64*BytesPerPixel), and
`acc` is the prefix of the destination written so far (the Go `next` index is
acc.length).  An identical-run opcode whose count overshoots destLen panics at
the write `dest[next] = value`; a verbatim-copy opcode first reslices
`dest[next : next+count]`, which panics only past the capacity, and otherwise
proceeds by the full count even beyond destLen.  Fuel only bounds the
iteration count; every iteration consumes at least the opcode byte, so the
canonical fuel `remaining + 1` used by decodeRLE is never exhausted. -/
def decodeRLEAux : Nat → File → Nat → Nat → List Nat → RLERes
  | 0, _, _, _, _ => .ioError
  | fuel + 1, f, destLen, cap, acc =>
    if destLen ≤ acc.length then .ok acc f
    else
      match readU8 f with
      | none => .ioError
      | some (op, f₁) =>
        if op ≤ 126 then
          -- short run of identical bytes
          match readU8 f₁ with
          | none => .ioError
          | some (v, f₂) =>
            let count := op + 1
            if destLen < acc.length + count then .panic
            else decodeRLEAux fuel f₂ destLen cap (acc ++ List.replicate count v)
        else if op = 127 then
          -- long run of identical bytes
          match readN f₁ 3 with
          | none => .ioError
          | some (bs, f₂) =>
            let count := bs.getD 0 0 * 256 + bs.getD 1 0
            let v := bs.getD 2 0
            if destLen < acc.length + count then .panic
            else decodeRLEAux fuel f₂ destLen cap (acc ++ List.replicate count v)
        else if op = 128 then
          -- long run of different bytes, copied verbatim from the stream
          match readN f₁ 2 with
          | none => .ioError
          | some (bs, f₂) =>
            let count := bs.getD 0 0 * 256 + bs.getD 1 0
            if cap < acc.length + count then .panic
            else
              match readN f₂ count with
              | none => .ioError
              | some (s, f₃) => decodeRLEAux fuel f₃ destLen cap (acc ++ s)
        else
          -- short run of different bytes, copied verbatim from the stream
          let count := 256 - op
          if cap < acc.length + count then .panic
          else
            match readN f₁ count with
            | none => .ioError
            | some (s, f₂) => decodeRLEAux fuel f₂ destLen cap (acc ++ s)

/-- decodeRLE (xcf.go line 454): fill a destination of destLen bytes (with
underlying capacity cap) from the stream. -/
def decodeRLE (f : File) (destLen cap : Nat) : RLERes :=
  decodeRLEAux (f.data.length + 1) f destLen cap []

/-! ### Stream reading lemmas -/

theorem rem_readN (bs tl : List Nat) (n : Nat) {f : File}
    (hw : f.pos ≤ f.data.length) (h : f.rem = bs ++ tl) (hn : bs.length = n) :
    readN f n = some (bs, ⟨f.data, f.pos + n⟩) ∧ f.pos + n ≤ f.data.length ∧
      File.rem ⟨f.data, f.pos + n⟩ = tl := by
  have hlen : f.rem.length = f.data.length - f.pos := by
    simp [File.rem]
  have hle : f.pos + n ≤ f.data.length := by
    rw [h] at hlen
    simp only [List.length_append, hn] at hlen
    omega
  have htake : (f.data.drop f.pos).take n = bs := by
    have hrem : f.data.drop f.pos = bs ++ tl := h
    rw [hrem, ← hn, List.take_left]
  have hdrop : File.rem ⟨f.data, f.pos + n⟩ = tl := by
    show f.data.drop (f.pos + n) = tl
    have h2 : (f.data.drop f.pos).drop n = f.data.drop (f.pos + n) := by
      rw [List.drop_drop, Nat.add_comm]
    rw [← h2]
    have hrem : f.data.drop f.pos = bs ++ tl := h
    rw [hrem, ← hn, List.drop_left]
  refine ⟨?_, hle, hdrop⟩
  by_cases h0 : n = 0
  · subst h0
    have : bs = [] := List.eq_nil_of_length_eq_zero hn
    subst this
    simp [readN]
  · rw [readN, if_neg h0, if_pos hle, htake]

theorem rem_readU8 {f : File} {b : Nat} {tl : List Nat}
    (hw : f.pos ≤ f.data.length) (h : f.rem = b :: tl) :
    readU8 f = some (b, ⟨f.data, f.pos + 1⟩) ∧ f.pos + 1 ≤ f.data.length ∧
      File.rem ⟨f.data, f.pos + 1⟩ = tl := by
  obtain ⟨h1, h2, h3⟩ := rem_readN [b] tl 1 hw (by simpa using h) rfl
  exact ⟨by rw [readU8, h1]; rfl, h2, h3⟩

theorem rem_readU32 {f : File} {a b c d : Nat} {tl : List Nat}
    (hw : f.pos ≤ f.data.length) (h : f.rem = a :: b :: c :: d :: tl) :
    readU32 f = some (((a * 256 + b) * 256 + c) * 256 + d, ⟨f.data, f.pos + 4⟩) ∧
      f.pos + 4 ≤ f.data.length ∧ File.rem ⟨f.data, f.pos + 4⟩ = tl := by
  obtain ⟨h1, h2, h3⟩ := rem_readN [a, b, c, d] tl 4 hw (by simpa using h) rfl
  refine ⟨?_, h2, h3⟩
  rw [readU32, h1]
  simp [beVal, List.foldl]

/-! ### decodeRLE step lemmas -/

theorem decodeRLEAux_exit (fuel : Nat) (f : File) (d cap : Nat) (acc : List Nat)
    (h : d ≤ acc.length) : decodeRLEAux (fuel + 1) f d cap acc = .ok acc f := by
  simp [decodeRLEAux, h]

theorem decodeRLEAux_run (fuel : Nat) (f : File) (op v : Nat) (tl acc : List Nat)
    (d cap : Nat)
    (hw : f.pos ≤ f.data.length) (hrem : f.rem = op :: v :: tl)
    (hop : op ≤ 126) (hlt : acc.length < d) (hfit : acc.length + (op + 1) ≤ d) :
    decodeRLEAux (fuel + 1) f d cap acc =
      decodeRLEAux fuel ⟨f.data, f.pos + 1 + 1⟩ d cap (acc ++ List.replicate (op + 1) v) := by
  obtain ⟨h1, hw1, hr1⟩ := rem_readU8 hw hrem
  obtain ⟨h2, hw2, hr2⟩ := rem_readU8 hw1 hr1
  rw [decodeRLEAux, if_neg (by omega), h1]
  simp only
  rw [if_pos hop, h2]
  simp only
  rw [if_neg (by omega)]

theorem decodeRLEAux_run_panic (fuel : Nat) (f : File) (op v : Nat) (tl acc : List Nat)
    (d cap : Nat)
    (hw : f.pos ≤ f.data.length) (hrem : f.rem = op :: v :: tl)
    (hop : op ≤ 126) (hlt : acc.length < d) (hov : d < acc.length + (op + 1)) :
    decodeRLEAux (fuel + 1) f d cap acc = .panic := by
  obtain ⟨h1, hw1, hr1⟩ := rem_readU8 hw hrem
  obtain ⟨h2, hw2, hr2⟩ := rem_readU8 hw1 hr1
  rw [decodeRLEAux, if_neg (by omega), h1]
  simp only
  rw [if_pos hop, h2]
  simp only
  rw [if_pos (by omega)]

theorem decodeRLEAux_longrun (fuel : Nat) (f : File) (op b1 b2 v : Nat) (tl acc : List Nat)
    (d cap : Nat)
    (hw : f.pos ≤ f.data.length) (hrem : f.rem = op :: b1 :: b2 :: v :: tl) (hop : op = 127)
    (hlt : acc.length < d) (hfit : acc.length + (b1 * 256 + b2) ≤ d) :
    decodeRLEAux (fuel + 1) f d cap acc =
      decodeRLEAux fuel ⟨f.data, f.pos + 1 + 3⟩ d cap
        (acc ++ List.replicate (b1 * 256 + b2) v) := by
  obtain ⟨h1, hw1, hr1⟩ := rem_readU8 hw hrem
  obtain ⟨h2, hw2, hr2⟩ := rem_readN [b1, b2, v] tl 3 hw1 (by simpa using hr1) rfl
  rw [decodeRLEAux, if_neg (by omega), h1]
  simp only
  rw [if_neg (by omega), if_pos hop, h2]
  simp only [List.getD_cons_zero, List.getD_cons_succ]
  rw [if_neg (by omega)]

theorem decodeRLEAux_longrun_panic (fuel : Nat) (f : File) (op b1 b2 v : Nat)
    (tl acc : List Nat) (d cap : Nat)
    (hw : f.pos ≤ f.data.length) (hrem : f.rem = op :: b1 :: b2 :: v :: tl) (hop : op = 127)
    (hlt : acc.length < d) (hov : d < acc.length + (b1 * 256 + b2)) :
    decodeRLEAux (fuel + 1) f d cap acc = .panic := by
  obtain ⟨h1, hw1, hr1⟩ := rem_readU8 hw hrem
  obtain ⟨h2, hw2, hr2⟩ := rem_readN [b1, b2, v] tl 3 hw1 (by simpa using hr1) rfl
  rw [decodeRLEAux, if_neg (by omega), h1]
  simp only
  rw [if_neg (by omega), if_pos hop, h2]
  simp only [List.getD_cons_zero, List.getD_cons_succ]
  rw [if_pos (by omega)]

theorem decodeRLEAux_longcopy (fuel : Nat) (f : File) (op b1 b2 : Nat) (s tl acc : List Nat)
    (d cap : Nat)
    (hw : f.pos ≤ f.data.length) (hrem : f.rem = op :: b1 :: b2 :: (s ++ tl)) (hop : op = 128)
    (hs : s.length = b1 * 256 + b2)
    (hlt : acc.length < d) (hcap : acc.length + (b1 * 256 + b2) ≤ cap) :
    decodeRLEAux (fuel + 1) f d cap acc =
      decodeRLEAux fuel ⟨f.data, f.pos + 1 + 2 + (b1 * 256 + b2)⟩ d cap (acc ++ s) := by
  obtain ⟨h1, hw1, hr1⟩ := rem_readU8 hw hrem
  obtain ⟨h2, hw2, hr2⟩ := rem_readN [b1, b2] (s ++ tl) 2 hw1 (by simpa using hr1) rfl
  obtain ⟨h3, hw3, hr3⟩ := rem_readN s tl (b1 * 256 + b2) hw2 hr2 hs
  rw [decodeRLEAux, if_neg (by omega), h1]
  simp only
  rw [if_neg (by omega), if_neg (by omega), if_pos hop, h2]
  simp only [List.getD_cons_zero, List.getD_cons_succ]
  rw [if_neg (by omega), h3]

theorem decodeRLEAux_longcopy_panic (fuel : Nat) (f : File) (op b1 b2 : Nat)
    (tl acc : List Nat) (d cap : Nat)
    (hw : f.pos ≤ f.data.length) (hrem : f.rem = op :: b1 :: b2 :: tl) (hop : op = 128)
    (hlt : acc.length < d) (hcap : cap < acc.length + (b1 * 256 + b2)) :
    decodeRLEAux (fuel + 1) f d cap acc = .panic := by
  obtain ⟨h1, hw1, hr1⟩ := rem_readU8 hw hrem
  obtain ⟨h2, hw2, hr2⟩ := rem_readN [b1, b2] tl 2 hw1 (by simpa using hr1) rfl
  rw [decodeRLEAux, if_neg (by omega), h1]
  simp only
  rw [if_neg (by omega), if_neg (by omega), if_pos hop, h2]
  simp only [List.getD_cons_zero, List.getD_cons_succ]
  rw [if_pos (by omega)]

theorem decodeRLEAux_shortcopy (fuel : Nat) (f : File) (op : Nat) (s tl acc : List Nat)
    (d cap : Nat)
    (hw : f.pos ≤ f.data.length) (hrem : f.rem = op :: (s ++ tl))
    (hop : 129 ≤ op) (hs : s.length = 256 - op)
    (hlt : acc.length < d) (hcap : acc.length + (256 - op) ≤ cap) :
    decodeRLEAux (fuel + 1) f d cap acc =
      decodeRLEAux fuel ⟨f.data, f.pos + 1 + (256 - op)⟩ d cap (acc ++ s) := by
  obtain ⟨h1, hw1, hr1⟩ := rem_readU8 hw hrem
  obtain ⟨h3, hw3, hr3⟩ := rem_readN s tl (256 - op) hw1 hr1 hs
  rw [decodeRLEAux, if_neg (by omega), h1]
  simp only
  rw [if_neg (by omega), if_neg (by omega), if_neg (by omega), if_neg (by omega), h3]

theorem decodeRLEAux_shortcopy_panic (fuel : Nat) (f : File) (op : Nat) (tl acc : List Nat)
    (d cap : Nat)
    (hw : f.pos ≤ f.data.length) (hrem : f.rem = op :: tl)
    (hop : 129 ≤ op) (hlt : acc.length < d) (hcap : cap < acc.length + (256 - op)) :
    decodeRLEAux (fuel + 1) f d cap acc = .panic := by
  obtain ⟨h1, hw1, hr1⟩ := rem_readU8 hw hrem
  rw [decodeRLEAux, if_neg (by omega), h1]
  simp only
  rw [if_neg (by omega), if_neg (by omega), if_neg (by omega), if_pos (by omega)]

/-- Whenever decodeRLE succeeds, at least destLen output bytes were produced,
i.e. the destination buffer has been filled completely. -/
theorem decodeRLEAux_ok_length {fuel : Nat} :
    ∀ {f : File} {d cap : Nat} {acc out : List Nat} {f' : File},
      decodeRLEAux fuel f d cap acc = .ok out f' → d ≤ out.length := by
  induction fuel with
  | zero =>
    intro f d cap acc out f' h
    simp [decodeRLEAux] at h
  | succ fuel ih =>
    intro f d cap acc out f' h
    rw [decodeRLEAux] at h
    by_cases h1 : d ≤ acc.length
    · rw [if_pos h1] at h
      injection h with h2 h3
      subst h2
      exact h1
    · rw [if_neg h1] at h
      try simp only at h
      repeat' split at h
      all_goals first
        | exact ih h
        | simp_all

/-! ### Claims C1, C5, C6 : the RLE decoder -/

/-- C1 counterexample: the claim states that input [0x05, 0xAA] decodes to
five repetitions of 0xAA.  By the code's rule an opcode op in 0..=126 repeats
the value op+1 times, so opcode 0x05 produces SIX bytes: asking the decoder
for five bytes panics (the fill overshoots the destination), and the stream
actually decodes to six repetitions. -/
theorem claim_C1_counterexample :
    decodeRLE ⟨[5, 170], 0⟩ 5 5 = .panic ∧
    decodeRLE ⟨[5, 170], 0⟩ 5 5 ≠ .ok (List.replicate 5 170) ⟨[5, 170], 2⟩ ∧
    decodeRLE ⟨[5, 170], 0⟩ 6 6 = .ok (List.replicate 6 170) ⟨[5, 170], 2⟩ := by
  refine ⟨by decide, ?_, by decide⟩
  decide

/-- C1 (amended: input [0x05, 0xAA] decodes to SIX repetitions of 0xAA, not
five): the RLE decoder interprets op in 0..=126 as repeating one value byte
op+1 times; op = 127 as a 2-byte big-endian count, then one value byte
repeated count times; op = 128 as a 2-byte big-endian count of bytes copied
verbatim; op in 129..=255 as 256-op bytes copied verbatim — together with the
spec's remaining concrete streams. -/
theorem claim_C1_rle_opcodes :
    (∀ (op v : Nat) (rest : List Nat) (cap : Nat), op ≤ 126 →
      decodeRLE ⟨op :: v :: rest, 0⟩ (op + 1) cap =
        .ok (List.replicate (op + 1) v) ⟨op :: v :: rest, 2⟩)
  ∧ (∀ (b1 b2 v : Nat) (rest : List Nat) (cap : Nat), 1 ≤ b1 * 256 + b2 →
      decodeRLE ⟨127 :: b1 :: b2 :: v :: rest, 0⟩ (b1 * 256 + b2) cap =
        .ok (List.replicate (b1 * 256 + b2) v) ⟨127 :: b1 :: b2 :: v :: rest, 4⟩)
  ∧ (∀ (b1 b2 : Nat) (s rest : List Nat) (cap : Nat),
      s.length = b1 * 256 + b2 → 1 ≤ s.length → s.length ≤ cap →
      decodeRLE ⟨128 :: b1 :: b2 :: (s ++ rest), 0⟩ s.length cap =
        .ok s ⟨128 :: b1 :: b2 :: (s ++ rest), 3 + s.length⟩)
  ∧ (∀ (op : Nat) (s rest : List Nat) (cap : Nat), 129 ≤ op → op ≤ 255 →
      s.length = 256 - op → 256 - op ≤ cap →
      decodeRLE ⟨op :: (s ++ rest), 0⟩ (256 - op) cap =
        .ok s ⟨op :: (s ++ rest), 1 + s.length⟩)
  ∧ decodeRLE ⟨[5, 170], 0⟩ 6 6 = .ok (List.replicate 6 170) ⟨[5, 170], 2⟩
  ∧ decodeRLE ⟨[255, 66], 0⟩ 1 1 = .ok [66] ⟨[255, 66], 2⟩
  ∧ decodeRLE ⟨[127, 0, 3, 9], 0⟩ 3 3 = .ok [9, 9, 9] ⟨[127, 0, 3, 9], 4⟩
  ∧ decodeRLE ⟨[128, 0, 2, 17, 34], 0⟩ 2 2 = .ok [17, 34] ⟨[128, 0, 2, 17, 34], 5⟩ := by
  refine ⟨?_, ?_, ?_, ?_, by decide, by decide, by decide, by decide⟩
  · intro op v rest cap hop
    have hstep := decodeRLEAux_run (rest.length + 1 + 1) ⟨op :: v :: rest, 0⟩ op v rest []
      (op + 1) cap (Nat.zero_le _) rfl hop (by simp only [List.length_nil]; omega)
      (by simp only [List.length_nil]; omega)
    have hexit := decodeRLEAux_exit (rest.length + 1) ⟨op :: v :: rest, 0 + 1 + 1⟩ (op + 1)
      cap ([] ++ List.replicate (op + 1) v) (by simp)
    exact hstep.trans (hexit.trans (by simp))
  · intro b1 b2 v rest cap hc
    have hstep := decodeRLEAux_longrun (rest.length + 1 + 1 + 1 + 1)
      ⟨127 :: b1 :: b2 :: v :: rest, 0⟩ 127 b1 b2 v rest [] (b1 * 256 + b2) cap
      (Nat.zero_le _) rfl rfl (by simp only [List.length_nil]; omega)
      (by simp only [List.length_nil]; omega)
    have hexit := decodeRLEAux_exit (rest.length + 1 + 1 + 1)
      ⟨127 :: b1 :: b2 :: v :: rest, 0 + 1 + 3⟩ (b1 * 256 + b2) cap
      ([] ++ List.replicate (b1 * 256 + b2) v) (by simp)
    refine hstep.trans (hexit.trans ?_)
    simp
  · intro b1 b2 s rest cap hs h1 hcap
    have hstep := decodeRLEAux_longcopy ((s ++ rest).length + 1 + 1 + 1)
      ⟨128 :: b1 :: b2 :: (s ++ rest), 0⟩ 128 b1 b2 s rest [] s.length cap
      (Nat.zero_le _) rfl rfl hs (by simp only [List.length_nil]; omega)
      (by simp only [List.length_nil]; omega)
    have hexit := decodeRLEAux_exit ((s ++ rest).length + 1 + 1)
      ⟨128 :: b1 :: b2 :: (s ++ rest), 0 + 1 + 2 + (b1 * 256 + b2)⟩ s.length cap
      ([] ++ s) (by simp)
    refine hstep.trans (hexit.trans ?_)
    simp only [List.nil_append, RLERes.ok.injEq, File.mk.injEq]
    refine ⟨trivial, trivial, ?_⟩
    omega
  · intro op s rest cap hop1 hop2 hs hcap
    have hstep := decodeRLEAux_shortcopy ((s ++ rest).length + 1) ⟨op :: (s ++ rest), 0⟩
      op s rest [] (256 - op) cap (Nat.zero_le _) rfl hop1 hs
      (by simp only [List.length_nil]; omega) (by simp only [List.length_nil]; omega)
    have hexit := decodeRLEAux_exit ((s ++ rest).length) ⟨op :: (s ++ rest), 0 + 1 + (256 - op)⟩
      (256 - op) cap ([] ++ s) (by simp [hs])
    refine hstep.trans (hexit.trans ?_)
    simp only [List.nil_append, RLERes.ok.injEq, File.mk.injEq]
    refine ⟨trivial, trivial, ?_⟩
    omega

/-- Witness for C1: each universally quantified conjunct applied at a
concrete stream. -/
theorem claim_C1_rle_opcodes_witness :
    decodeRLE ⟨[2, 9], 0⟩ 3 3 = .ok (List.replicate 3 9) ⟨[2, 9], 2⟩ ∧
    decodeRLE ⟨[127, 1, 0, 7], 0⟩ 256 300 = .ok (List.replicate 256 7) ⟨[127, 1, 0, 7], 4⟩ ∧
    decodeRLE ⟨[128, 0, 1, 44], 0⟩ 1 1 = .ok [44] ⟨[128, 0, 1, 44], 4⟩ ∧
    decodeRLE ⟨[254, 8, 9], 0⟩ 2 2 = .ok [8, 9] ⟨[254, 8, 9], 3⟩ :=
  ⟨claim_C1_rle_opcodes.1 2 9 [] 3 (by decide),
   claim_C1_rle_opcodes.2.1 1 0 7 [] 300 (by decide),
   claim_C1_rle_opcodes.2.2.1 0 1 [44] [] 1 (by decide) (by decide) (by decide),
   claim_C1_rle_opcodes.2.2.2.1 254 [8, 9] [] 2 (by decide) (by decide) (by decide)
     (by decide)⟩

/-- A bare io.Reader.Read on the readers this package runs on (os.File via
LoadFromFile, bytes.Reader): a read of k > 0 bytes returns min(k, remaining)
bytes with a NIL error whenever at least one byte remains, and (0, io.EOF)
only when the source is exhausted; a read of 0 bytes returns (0, nil).
none models the error return (the only case decodeRLE's `if err != nil`
catches). -/
def bareRead (f : File) (k : Nat) : Option (List Nat × File) :=
  if k = 0 then some ([], f)
  else if f.pos < f.data.length then
    some ((f.data.drop f.pos).take k, ⟨f.data, min (f.pos + k) f.data.length⟩)
  else none

/-- Go's copy of `bs` into the subslice l[i : i + len(bs)]: positions
i .. i+len(bs)-1 of l receive the bytes of bs, everything else keeps its
previous (possibly stale) content, and bytes falling past the end of l are
dropped.  Preserves the length of l. -/
def overlay (l : List Nat) (i : Nat) (bs : List Nat) : List Nat :=
  l.take i ++ bs.take (l.length - i) ++ l.drop (i + bs.length)

/-- Outcome of the bare-Read model of decodeRLE: success carries the final
contents of the destination slice dest (length = len(dest)) and the stream
after decoding. -/
inductive GoRLERes where
  | ok (dest : List Nat) (f : File)
  | ioError
  | panic
deriving Repr, DecidableEq

/-- The loop of decodeRLE (xcf.go lines 454-505) with the BARE Read
semantics the code actually gets: every `encoded.Read(...)` is bareRead, the
returned byte count is discarded, and a short read leaves the unserved tail
of the target region (the local `var buffer [4]byte`, or dest[next:next+count])
holding its previous content.  `buffer` is the 4-byte scratch array, `dest`
the current contents of the destination slice (length destLen, cap `cap`),
`next` the write index.  Panics are as in decodeRLEAux: dest[next] = value
is out of range when next ≥ destLen, dest[next:next+count] is out of range
past cap. -/
def decodeRLEGoAux : Nat → File → Nat → Nat → List Nat → List Nat → Nat → GoRLERes
  | 0, _, _, _, _, _, _ => .ioError
  | fuel + 1, f, destLen, cap, buffer, dest, next =>
    if destLen ≤ next then .ok dest f
    else
      match bareRead f 1 with
      | none => .ioError
      | some (b0, f₁) =>
        let buf₀ := overlay buffer 0 b0
        let op := buf₀.getD 0 0
        if op ≤ 126 then
          -- short run of identical bytes
          match bareRead f₁ 1 with
          | none => .ioError
          | some (b1, f₂) =>
            let buf₁ := overlay buf₀ 1 b1
            let count := op + 1
            let value := buf₁.getD 1 0
            if destLen < next + count then .panic
            else decodeRLEGoAux fuel f₂ destLen cap buf₁
              (overlay dest next (List.replicate count value)) (next + count)
        else if op = 127 then
          -- long run of identical bytes: 3-byte header into buffer[1:4]
          match bareRead f₁ 3 with
          | none => .ioError
          | some (bs, f₂) =>
            let buf₁ := overlay buf₀ 1 bs
            let count := buf₁.getD 1 0 * 256 + buf₁.getD 2 0
            let value := buf₁.getD 3 0
            if destLen < next + count then .panic
            else decodeRLEGoAux fuel f₂ destLen cap buf₁
              (overlay dest next (List.replicate count value)) (next + count)
        else if op = 128 then
          -- long verbatim copy: 2-byte header into buffer[1:3], then payload
          match bareRead f₁ 2 with
          | none => .ioError
          | some (bs, f₂) =>
            let buf₁ := overlay buf₀ 1 bs
            let count := buf₁.getD 1 0 * 256 + buf₁.getD 2 0
            if cap < next + count then .panic
            else
              match bareRead f₂ count with
              | none => .ioError
              | some (s, f₃) =>
                decodeRLEGoAux fuel f₃ destLen cap buf₁ (overlay dest next s)
                  (next + count)
        else
          -- short verbatim copy
          let count := 256 - op
          if cap < next + count then .panic
          else
            match bareRead f₁ count with
            | none => .ioError
            | some (s, f₂) =>
              decodeRLEGoAux fuel f₂ destLen cap buf₀ (overlay dest next s)
                (next + count)

/-- decodeRLE with bare-Read semantics, at the call site of readImageData
(xcf.go line 416): dest = buffer[:destByteCount] of a freshly made (hence
zero-filled) buffer, buffer[4] zero-initialised.  Every continuing iteration
consumes at least one source byte, so data.length + 1 fuel suffices. -/
def decodeRLEGo (f : File) (destLen cap : Nat) : GoRLERes :=
  decodeRLEGoAux (f.data.length + 1) f destLen cap [0, 0, 0, 0]
    (List.replicate destLen 0) 0

/-- C5 (the claim is false of the code): decodeRLE issues bare Read calls
and ignores the byte count, and its readers serve partial data with a nil
error, so a source exhausted before the destination count is produced does
NOT surface an error.  On [127, 0, 3] (a long-run opcode whose 3-byte header
is cut short) the header read returns 2 bytes with nil error, the value byte
stays the stale buffer[3] = 0, and decode SUCCEEDS with a zero-padded
3-byte destination.  On [128, 0, 2, 17] and on [254, 8] the verbatim payload
read serves 1 of 2 bytes with nil error, next advances by the full count,
and decode SUCCEEDS with a partially filled destination [17, 0] / [8, 0].
The idealized all-or-error reading (decodeRLE) would return an io error on
each of these streams, which is what the claim asserts; the bare-Read model
(decodeRLEGo) returns success. -/
theorem claim_C5_rle_truncation_bug :
    (decodeRLE ⟨[127, 0, 3], 0⟩ 3 16384 = .ioError ∧
      decodeRLEGo ⟨[127, 0, 3], 0⟩ 3 16384 = .ok [0, 0, 0] ⟨[127, 0, 3], 3⟩) ∧
    (decodeRLE ⟨[128, 0, 2, 17], 0⟩ 2 16384 = .ioError ∧
      decodeRLEGo ⟨[128, 0, 2, 17], 0⟩ 2 16384 = .ok [17, 0] ⟨[128, 0, 2, 17], 4⟩) ∧
    (decodeRLE ⟨[254, 8], 0⟩ 2 16384 = .ioError ∧
      decodeRLEGo ⟨[254, 8], 0⟩ 2 16384 = .ok [8, 0] ⟨[254, 8], 2⟩) :=
  ⟨⟨rfl, rfl⟩, ⟨rfl, rfl⟩, ⟨rfl, rfl⟩⟩

/-- C6 counterexample: the claim says a final opcode whose count overshoots
the requested destination count proceeds by the full declared count for
copies AND fills.  For an identical-run fill that is false: opcode 0x02
(count 3) against a 2-byte destination panics with an index-out-of-range
write instead of filling 3 bytes; the decode does not succeed. -/
theorem claim_C6_counterexample :
    decodeRLE ⟨[2, 170], 0⟩ 2 16384 = .panic ∧
    decodeRLE ⟨[2, 170], 0⟩ 2 16384 ≠ .ok [170, 170, 170] ⟨[2, 170], 2⟩ := by
  refine ⟨by decide, ?_⟩
  decide

/-- C6 (amended): a final VERBATIM-COPY opcode (128 or 129..=255) whose count
overshoots the destination count proceeds by the full declared count, up to
the capacity of the underlying buffer (beyond which it panics on reslicing);
a final IDENTICAL-RUN opcode (0..=126 or 127) that would overshoot panics at
the out-of-range destination write instead of proceeding. -/
theorem claim_C6_overshoot :
    (∀ (op : Nat) (s rest : List Nat) (destLen cap : Nat), 129 ≤ op → op ≤ 255 →
       s.length = 256 - op → 1 ≤ destLen → destLen < 256 - op → 256 - op ≤ cap →
       decodeRLE ⟨op :: (s ++ rest), 0⟩ destLen cap = .ok s ⟨op :: (s ++ rest), 1 + s.length⟩)
  ∧ (∀ (b1 b2 : Nat) (s rest : List Nat) (destLen cap : Nat),
       s.length = b1 * 256 + b2 → 1 ≤ destLen → destLen < s.length → s.length ≤ cap →
       decodeRLE ⟨128 :: b1 :: b2 :: (s ++ rest), 0⟩ destLen cap =
         .ok s ⟨128 :: b1 :: b2 :: (s ++ rest), 3 + s.length⟩)
  ∧ (∀ (op v : Nat) (rest : List Nat) (destLen cap : Nat), op ≤ 126 →
       1 ≤ destLen → destLen < op + 1 →
       decodeRLE ⟨op :: v :: rest, 0⟩ destLen cap = .panic)
  ∧ (∀ (b1 b2 v : Nat) (rest : List Nat) (destLen cap : Nat),
       1 ≤ destLen → destLen < b1 * 256 + b2 →
       decodeRLE ⟨127 :: b1 :: b2 :: v :: rest, 0⟩ destLen cap = .panic)
  ∧ (∀ (op : Nat) (rest : List Nat) (destLen cap : Nat), 129 ≤ op → op ≤ 255 →
       1 ≤ destLen → cap < 256 - op →
       decodeRLE ⟨op :: rest, 0⟩ destLen cap = .panic) := by
  refine ⟨?_, ?_, ?_, ?_, ?_⟩
  · intro op s rest destLen cap hop1 hop2 hs hd hov hcap
    have hstep := decodeRLEAux_shortcopy ((s ++ rest).length + 1) ⟨op :: (s ++ rest), 0⟩
      op s rest [] destLen cap (Nat.zero_le _) rfl hop1 hs
      (by simp only [List.length_nil]; omega) (by simp only [List.length_nil]; omega)
    have hexit := decodeRLEAux_exit ((s ++ rest).length) ⟨op :: (s ++ rest), 0 + 1 + (256 - op)⟩
      destLen cap ([] ++ s) (by simp only [List.nil_append]; omega)
    refine hstep.trans (hexit.trans ?_)
    simp only [List.nil_append, RLERes.ok.injEq, File.mk.injEq]
    refine ⟨trivial, trivial, ?_⟩
    omega
  · intro b1 b2 s rest destLen cap hs hd hov hcap
    have hstep := decodeRLEAux_longcopy ((s ++ rest).length + 1 + 1 + 1)
      ⟨128 :: b1 :: b2 :: (s ++ rest), 0⟩ 128 b1 b2 s rest [] destLen cap
      (Nat.zero_le _) rfl rfl hs (by simp only [List.length_nil]; omega)
      (by simp only [List.length_nil]; omega)
    have hexit := decodeRLEAux_exit ((s ++ rest).length + 1 + 1)
      ⟨128 :: b1 :: b2 :: (s ++ rest), 0 + 1 + 2 + (b1 * 256 + b2)⟩ destLen cap
      ([] ++ s) (by simp only [List.nil_append]; omega)
    refine hstep.trans (hexit.trans ?_)
    simp only [List.nil_append, RLERes.ok.injEq, File.mk.injEq]
    refine ⟨trivial, trivial, ?_⟩
    omega
  · intro op v rest destLen cap hop hd hov
    exact decodeRLEAux_run_panic (rest.length + 1 + 1) ⟨op :: v :: rest, 0⟩ op v rest []
      destLen cap (Nat.zero_le _) rfl hop (by simp only [List.length_nil]; omega)
      (by simp only [List.length_nil]; omega)
  · intro b1 b2 v rest destLen cap hd hov
    exact decodeRLEAux_longrun_panic (rest.length + 1 + 1 + 1 + 1)
      ⟨127 :: b1 :: b2 :: v :: rest, 0⟩ 127 b1 b2 v rest [] destLen cap
      (Nat.zero_le _) rfl rfl (by simp only [List.length_nil]; omega)
      (by simp only [List.length_nil]; omega)
  · intro op rest destLen cap hop1 hop2 hd hcap
    exact decodeRLEAux_shortcopy_panic (rest.length + 1) ⟨op :: rest, 0⟩ op rest []
      destLen cap (Nat.zero_le _) rfl hop1 (by simp only [List.length_nil]; omega)
      (by simp only [List.length_nil]; omega)

/-- Witness for C6: each conjunct applied to a concrete overshooting stream. -/
theorem claim_C6_overshoot_witness :
    decodeRLE ⟨[254, 7, 8], 0⟩ 1 16384 = .ok [7, 8] ⟨[254, 7, 8], 3⟩ ∧
    decodeRLE ⟨[128, 0, 2, 7, 8], 0⟩ 1 16384 = .ok [7, 8] ⟨[128, 0, 2, 7, 8], 5⟩ ∧
    decodeRLE ⟨[3, 170], 0⟩ 2 16384 = .panic ∧
    decodeRLE ⟨[127, 0, 9, 170], 0⟩ 2 16384 = .panic ∧
    decodeRLE ⟨[200, 1, 2], 0⟩ 1 3 = .panic :=
  ⟨claim_C6_overshoot.1 254 [7, 8] [] 1 16384 (by decide) (by decide) (by decide) (by decide)
     (by decide) (by decide),
   claim_C6_overshoot.2.1 0 2 [7, 8] [] 1 16384 (by decide) (by decide) (by decide)
     (by decide),
   claim_C6_overshoot.2.2.1 3 170 [] 2 16384 (by decide) (by decide) (by decide),
   claim_C6_overshoot.2.2.2.1 0 9 170 [] 2 16384 (by decide) (by decide),
   claim_C6_overshoot.2.2.2.2 200 [1, 2] 1 3 (by decide) (by decide) (by decide) (by decide)⟩

/-! ### Claim C3 : tile geometry (readImageData, xcf.go lines 378-394, 406-413) -/

/-- Tile grid column count: int(layerHeader.Width+63) / 64, where Width+63 is
computed in uint32 arithmetic and wraps. -/
def tileCountX (w : Nat) : Nat := ((w + 63) % 4294967296) / 64

/-- Tile grid row count: int(layerHeader.Height+63) / 64 with uint32 wrap. -/
def tileCountY (h : Nat) : Nat := ((h + 63) % 4294967296) / 64

/-- rightMostTileWidth (xcf.go lines 380-383): Width % 64, or 64 when that
remainder is 0. -/
def rightMostTileWidth (w : Nat) : Nat := if w % 64 = 0 then 64 else w % 64

/-- bottomMostTileHeight (xcf.go lines 384-387). -/
def bottomMostTileHeight (h : Nat) : Nat := if h % 64 = 0 then 64 else h % 64

/-- Width of the tile in column tx (xcf.go lines 406-409): 64 except for the
last column, which gets rightMostTileWidth. -/
def tileWidthAt (w tx : Nat) : Nat :=
  if tx = tileCountX w - 1 then rightMostTileWidth w else 64

/-- Height of the tile in row ty (xcf.go lines 406-413). -/
def tileHeightAt (h ty : Nat) : Nat :=
  if ty = tileCountY h - 1 then bottomMostTileHeight h else 64

/-- C3 counterexample: the claimed column count ceil(w/64) fails for widths
at the top of the uint32 range, because the code computes Width+63 in
wrapping uint32 arithmetic: a layer of width 4294967295 gets 0 columns, not
ceil(4294967295/64) = 67108864. -/
theorem claim_C3_counterexample :
    tileCountX 4294967295 = 0 ∧ (4294967295 + 63) / 64 = 67108864 ∧
    tileCountX 4294967295 ≠ (4294967295 + 63) / 64 := by
  refine ⟨by decide, by decide, ?_⟩
  decide

/-- C3 (amended: for widths/heights with w+63 < 2^32, i.e. excluding the
uint32 wrap at w ≥ 2^32-63): the tile grid has ceil(w/64) columns and
ceil(h/64) rows (characterized by 64(count-1) < w ≤ 64·count); every column
except the last is 64 wide; the last column is exactly the remaining
w - 64(count-1) pixels wide, which equals w mod 64, or 64 when that remainder
is 0; same for rows; and a 70×70 layer yields a 2×2 grid with 6-pixel
rightmost and bottommost tiles, the others 64. -/
theorem claim_C3_tile_geometry :
    (∀ w : Nat, 1 ≤ w → w + 63 < 4294967296 →
       (w ≤ 64 * tileCountX w ∧ 64 * (tileCountX w - 1) < w) ∧
       (∀ tx : Nat, tx < tileCountX w - 1 → tileWidthAt w tx = 64) ∧
       tileWidthAt w (tileCountX w - 1) = w - 64 * (tileCountX w - 1) ∧
       (w % 64 = 0 → rightMostTileWidth w = 64) ∧
       (w % 64 ≠ 0 → rightMostTileWidth w = w % 64))
  ∧ (∀ h : Nat, 1 ≤ h → h + 63 < 4294967296 →
       (h ≤ 64 * tileCountY h ∧ 64 * (tileCountY h - 1) < h) ∧
       (∀ ty : Nat, ty < tileCountY h - 1 → tileHeightAt h ty = 64) ∧
       tileHeightAt h (tileCountY h - 1) = h - 64 * (tileCountY h - 1) ∧
       (h % 64 = 0 → bottomMostTileHeight h = 64) ∧
       (h % 64 ≠ 0 → bottomMostTileHeight h = h % 64))
  ∧ tileCountX 70 = 2 ∧ tileCountY 70 = 2
  ∧ tileWidthAt 70 1 = 6 ∧ tileHeightAt 70 1 = 6
  ∧ tileWidthAt 70 0 = 64 ∧ tileHeightAt 70 0 = 64 := by
  refine ⟨?_, ?_, by decide, by decide, by decide, by decide, by decide, by decide⟩
  · intro w h1 h2
    refine ⟨⟨?_, ?_⟩, ?_, ?_, ?_, ?_⟩
    · rw [tileCountX]; omega
    · rw [tileCountX]; omega
    · intro tx htx
      rw [tileWidthAt, if_neg (by omega)]
    · rw [tileWidthAt, if_pos rfl, rightMostTileWidth, tileCountX]
      rcases eq_or_ne (w % 64) 0 with h0 | h0 <;>
        simp only [h0, if_true, if_false] <;> omega
    · intro h0
      rw [rightMostTileWidth, if_pos h0]
    · intro h0
      rw [rightMostTileWidth, if_neg h0]
  · intro h h1 h2
    refine ⟨⟨?_, ?_⟩, ?_, ?_, ?_, ?_⟩
    · rw [tileCountY]; omega
    · rw [tileCountY]; omega
    · intro ty hty
      rw [tileHeightAt, if_neg (by omega)]
    · rw [tileHeightAt, if_pos rfl, bottomMostTileHeight, tileCountY]
      rcases eq_or_ne (h % 64) 0 with h0 | h0 <;>
        simp only [h0, if_true, if_false] <;> omega
    · intro h0
      rw [bottomMostTileHeight, if_pos h0]
    · intro h0
      rw [bottomMostTileHeight, if_neg h0]

/-- Witness for C3: the amended geometry applied at concrete sizes 70 and
128. -/
theorem claim_C3_tile_geometry_witness :
    (70 ≤ 64 * tileCountX 70 ∧ 64 * (tileCountX 70 - 1) < 70) ∧
    tileWidthAt 70 (tileCountX 70 - 1) = 70 - 64 * (tileCountX 70 - 1) ∧
    tileHeightAt 128 (tileCountY 128 - 1) = 128 - 64 * (tileCountY 128 - 1) :=
  ⟨(claim_C3_tile_geometry.1 70 (by decide) (by decide)).1,
   (claim_C3_tile_geometry.1 70 (by decide) (by decide)).2.2.1,
   (claim_C3_tile_geometry.2.1 128 (by decide) (by decide)).2.2.1⟩

/-! ### Claim C4 : planar de-interleaving (readImageData, xcf.go lines 420-446)

The RGBA pixel buffer (image.RGBA.Pix) is modelled as a total function
Nat → Nat updated pointwise with Function.update, in exactly the order of the
Go assignments.  `base` is the index of the scanline start (Stride*y), and
the planar scratch buffer `data` is read with the slice accesses of the
source (in range whenever len(data) = tileW*tileH*bytesPerPixel). -/

/-- Inner x-loop of the alpha branch (xcf.go lines 425-432): for cnt
consecutive pixels starting at column x, write the four channel bytes
line[x*4..x*4+3] from planes 0..3 of data, advancing dataIndex per pixel. -/
def scatterRowAlpha (pix : Nat → Nat) (base : Nat) (data : List Nat) (ofs : Nat)
    (dataIndex x : Nat) : Nat → (Nat → Nat) × Nat
  | 0 => (pix, dataIndex)
  | cnt + 1 =>
    let p0 := Function.update pix (base + x * 4) (data.getD dataIndex 0)
    let p1 := Function.update p0 (base + x * 4 + 1) (data.getD (dataIndex + ofs) 0)
    let p2 := Function.update p1 (base + x * 4 + 2) (data.getD (dataIndex + 2 * ofs) 0)
    let p3 := Function.update p2 (base + x * 4 + 3) (data.getD (dataIndex + 3 * ofs) 0)
    scatterRowAlpha p3 base data ofs (dataIndex + 1) (x + 1) cnt

/-- Scanline loop of the alpha branch (xcf.go lines 421-432): rows scanlines
starting at row y; each scanline starts at buffer index Stride*y. -/
def scatterRowsAlpha (pix : Nat → Nat) (stride : Nat) (data : List Nat) (ofs : Nat)
    (dataIndex left w y : Nat) : Nat → (Nat → Nat) × Nat
  | 0 => (pix, dataIndex)
  | rows + 1 =>
    let r := scatterRowAlpha pix (stride * y) data ofs dataIndex left w
    scatterRowsAlpha r.1 stride data ofs r.2 left w (y + 1) rows

/-- De-planarization of one tile with alpha (colorFormat rgbAlpha): dataIndex
starts at 0, ofs = len(data)/4, scanlines y in [top, top+h), columns x in
[left, left+w). -/
def scatterTileAlpha (pix : Nat → Nat) (stride : Nat) (data : List Nat)
    (left top w h : Nat) : Nat → Nat :=
  (scatterRowsAlpha pix stride data (data.length / 4) 0 left w top h).1

theorem scatterRowAlpha_out (data : List Nat) (base ofs : Nat) :
    ∀ (cnt : Nat) (pix : Nat → Nat) (dataIndex x : Nat),
      (scatterRowAlpha pix base data ofs dataIndex x cnt).2 = dataIndex + cnt := by
  intro cnt
  induction cnt with
  | zero => intro pix di x; rfl
  | succ cnt ih =>
    intro pix di x
    rw [scatterRowAlpha, ih]
    omega

theorem scatterRowAlpha_frame (data : List Nat) (base ofs : Nat) :
    ∀ (cnt : Nat) (pix : Nat → Nat) (dataIndex x q : Nat),
      (∀ k c : Nat, k < cnt → c < 4 → q ≠ base + (x + k) * 4 + c) →
      (scatterRowAlpha pix base data ofs dataIndex x cnt).1 q = pix q := by
  intro cnt
  induction cnt with
  | zero => intro pix di x q hq; rfl
  | succ cnt ih =>
    intro pix di x q hq
    simp only [scatterRowAlpha]
    rw [ih _ (di + 1) (x + 1) q (by
      intro k c hk hc
      have h := hq (k + 1) c (by omega) hc
      have hx : x + (k + 1) = x + 1 + k := by omega
      rw [hx] at h
      exact h)]
    have h0 := hq 0 0 (by omega) (by omega)
    have h1 := hq 0 1 (by omega) (by omega)
    have h2 := hq 0 2 (by omega) (by omega)
    have h3 := hq 0 3 (by omega) (by omega)
    rw [Function.update_noteq (by omega), Function.update_noteq (by omega),
      Function.update_noteq (by omega), Function.update_noteq (by omega)]

theorem scatterRowAlpha_value (data : List Nat) (base ofs : Nat) :
    ∀ (cnt : Nat) (pix : Nat → Nat) (dataIndex x k c : Nat), k < cnt → c < 4 →
      (scatterRowAlpha pix base data ofs dataIndex x cnt).1 (base + (x + k) * 4 + c) =
        data.getD (dataIndex + k + c * ofs) 0 := by
  intro cnt
  induction cnt with
  | zero => intro pix di x k c hk hc; omega
  | succ cnt ih =>
    intro pix di x k c hk hc
    simp only [scatterRowAlpha]
    cases k with
    | zero =>
      rw [scatterRowAlpha_frame data base ofs cnt _ (di + 1) (x + 1)
        (base + (x + 0) * 4 + c) (by intro k' c' hk' hc'; omega)]
      simp only [Function.update_apply]
      split_ifs with h3 h2 h1 h0
      · have hceq : c = 3 := by omega
        subst hceq
        first | rfl | (congr 1; omega)
      · have hceq : c = 2 := by omega
        subst hceq
        first | rfl | (congr 1; omega)
      · have hceq : c = 1 := by omega
        subst hceq
        first | rfl | (congr 1; omega)
      · have hceq : c = 0 := by omega
        subst hceq
        first | rfl | (congr 1; omega)
      · exfalso; omega
    | succ k' =>
      have hx : x + (k' + 1) = x + 1 + k' := by omega
      rw [hx]
      rw [ih _ (di + 1) (x + 1) k' c (by omega) hc]
      congr 1
      omega

theorem scatterRowsAlpha_out (data : List Nat) (stride ofs left w : Nat) :
    ∀ (rows : Nat) (pix : Nat → Nat) (dataIndex y : Nat),
      (scatterRowsAlpha pix stride data ofs dataIndex left w y rows).2 =
        dataIndex + rows * w := by
  intro rows
  induction rows with
  | zero => intro pix di y; simp [scatterRowsAlpha]
  | succ rows ih =>
    intro pix di y
    simp only [scatterRowsAlpha]
    rw [ih, scatterRowAlpha_out]
    ring

theorem scatterRowsAlpha_frame (data : List Nat) (stride ofs left w : Nat) :
    ∀ (rows : Nat) (pix : Nat → Nat) (dataIndex y q : Nat),
      (∀ j k c : Nat, j < rows → k < w → c < 4 →
        q ≠ stride * (y + j) + (left + k) * 4 + c) →
      (scatterRowsAlpha pix stride data ofs dataIndex left w y rows).1 q = pix q := by
  intro rows
  induction rows with
  | zero => intro pix di y q hq; rfl
  | succ rows ih =>
    intro pix di y q hq
    simp only [scatterRowsAlpha]
    rw [ih _ _ (y + 1) q (by
      intro j k c hj hk hc
      have h := hq (j + 1) k c (by omega) hk hc
      have hyj : y + (j + 1) = y + 1 + j := by omega
      rw [hyj] at h
      exact h)]
    rw [scatterRowAlpha_frame data (stride * y) ofs w pix di left q (by
      intro k c hk hc
      have h := hq 0 k c (by omega) hk hc
      rw [Nat.add_zero] at h
      exact h)]

theorem scatterRowsAlpha_value (data : List Nat) (stride ofs left w : Nat)
    (hs : 4 * (left + w) ≤ stride) :
    ∀ (rows : Nat) (pix : Nat → Nat) (dataIndex y j k c : Nat),
      j < rows → k < w → c < 4 →
      (scatterRowsAlpha pix stride data ofs dataIndex left w y rows).1
          (stride * (y + j) + (left + k) * 4 + c) =
        data.getD (dataIndex + j * w + k + c * ofs) 0 := by
  intro rows
  induction rows with
  | zero => intro pix di y j k c hj hk hc; omega
  | succ rows ih =>
    intro pix di y j k c hj hk hc
    simp only [scatterRowsAlpha]
    cases j with
    | zero =>
      rw [scatterRowsAlpha_frame data stride ofs left w rows _ _ (y + 1)
        (stride * (y + 0) + (left + k) * 4 + c) (by
          intro j' k' c' hj' hk' hc'
          have e1 : stride * (y + 1 + j') = stride * (y + 0) + stride * (1 + j') := by ring
          have e2 : stride ≤ stride * (1 + j') := by
            have h := Nat.mul_le_mul_left stride (show 1 ≤ 1 + j' by omega)
            simpa using h
          omega)]
      rw [Nat.add_zero]
      rw [scatterRowAlpha_value data (stride * y) ofs w pix di left k c hk hc]
      congr 1
      have hw0 : 0 * w = 0 := by ring
      omega
    | succ j' =>
      have hyj : y + (j' + 1) = y + 1 + j' := by omega
      rw [hyj]
      rw [ih _ _ (y + 1) j' k c (by omega) hk hc]
      rw [scatterRowAlpha_out]
      congr 1
      have hw : (j' + 1) * w = j' * w + w := by ring
      omega

/-- Inner x-loop of the no-alpha branch (xcf.go lines 434-443): three channel
planes plus a constant 255 alpha byte. -/
def scatterRowNoAlpha (pix : Nat → Nat) (base : Nat) (data : List Nat) (ofs : Nat)
    (dataIndex x : Nat) : Nat → (Nat → Nat) × Nat
  | 0 => (pix, dataIndex)
  | cnt + 1 =>
    let p0 := Function.update pix (base + x * 4) (data.getD dataIndex 0)
    let p1 := Function.update p0 (base + x * 4 + 1) (data.getD (dataIndex + ofs) 0)
    let p2 := Function.update p1 (base + x * 4 + 2) (data.getD (dataIndex + 2 * ofs) 0)
    let p3 := Function.update p2 (base + x * 4 + 3) 255
    scatterRowNoAlpha p3 base data ofs (dataIndex + 1) (x + 1) cnt

/-- Scanline loop of the no-alpha branch. -/
def scatterRowsNoAlpha (pix : Nat → Nat) (stride : Nat) (data : List Nat) (ofs : Nat)
    (dataIndex left w y : Nat) : Nat → (Nat → Nat) × Nat
  | 0 => (pix, dataIndex)
  | rows + 1 =>
    let r := scatterRowNoAlpha pix (stride * y) data ofs dataIndex left w
    scatterRowsNoAlpha r.1 stride data ofs r.2 left w (y + 1) rows

/-- De-planarization of one tile without alpha (colorFormat rgbNoAlpha):
ofs = len(data)/3 and the output alpha channel is the constant 255. -/
def scatterTileNoAlpha (pix : Nat → Nat) (stride : Nat) (data : List Nat)
    (left top w h : Nat) : Nat → Nat :=
  (scatterRowsNoAlpha pix stride data (data.length / 3) 0 left w top h).1

theorem scatterRowNoAlpha_out (data : List Nat) (base ofs : Nat) :
    ∀ (cnt : Nat) (pix : Nat → Nat) (dataIndex x : Nat),
      (scatterRowNoAlpha pix base data ofs dataIndex x cnt).2 = dataIndex + cnt := by
  intro cnt
  induction cnt with
  | zero => intro pix di x; rfl
  | succ cnt ih =>
    intro pix di x
    rw [scatterRowNoAlpha, ih]
    omega

theorem scatterRowNoAlpha_frame (data : List Nat) (base ofs : Nat) :
    ∀ (cnt : Nat) (pix : Nat → Nat) (dataIndex x q : Nat),
      (∀ k c : Nat, k < cnt → c < 4 → q ≠ base + (x + k) * 4 + c) →
      (scatterRowNoAlpha pix base data ofs dataIndex x cnt).1 q = pix q := by
  intro cnt
  induction cnt with
  | zero => intro pix di x q hq; rfl
  | succ cnt ih =>
    intro pix di x q hq
    simp only [scatterRowNoAlpha]
    rw [ih _ (di + 1) (x + 1) q (by
      intro k c hk hc
      have h := hq (k + 1) c (by omega) hc
      have hx : x + (k + 1) = x + 1 + k := by omega
      rw [hx] at h
      exact h)]
    have h0 := hq 0 0 (by omega) (by omega)
    have h1 := hq 0 1 (by omega) (by omega)
    have h2 := hq 0 2 (by omega) (by omega)
    have h3 := hq 0 3 (by omega) (by omega)
    rw [Function.update_noteq (by omega), Function.update_noteq (by omega),
      Function.update_noteq (by omega), Function.update_noteq (by omega)]

theorem scatterRowNoAlpha_value (data : List Nat) (base ofs : Nat) :
    ∀ (cnt : Nat) (pix : Nat → Nat) (dataIndex x k c : Nat), k < cnt → c < 3 →
      (scatterRowNoAlpha pix base data ofs dataIndex x cnt).1 (base + (x + k) * 4 + c) =
        data.getD (dataIndex + k + c * ofs) 0 := by
  intro cnt
  induction cnt with
  | zero => intro pix di x k c hk hc; omega
  | succ cnt ih =>
    intro pix di x k c hk hc
    simp only [scatterRowNoAlpha]
    cases k with
    | zero =>
      rw [scatterRowNoAlpha_frame data base ofs cnt _ (di + 1) (x + 1)
        (base + (x + 0) * 4 + c) (by intro k' c' hk' hc'; omega)]
      simp only [Function.update_apply]
      split_ifs with h3 h2 h1 h0
      · exfalso; omega
      · have hceq : c = 2 := by omega
        subst hceq
        first | rfl | (congr 1; omega)
      · have hceq : c = 1 := by omega
        subst hceq
        first | rfl | (congr 1; omega)
      · have hceq : c = 0 := by omega
        subst hceq
        first | rfl | (congr 1; omega)
      · exfalso; omega
    | succ k' =>
      have hx : x + (k' + 1) = x + 1 + k' := by omega
      rw [hx]
      rw [ih _ (di + 1) (x + 1) k' c (by omega) hc]
      congr 1
      omega

theorem scatterRowNoAlpha_alpha (data : List Nat) (base ofs : Nat) :
    ∀ (cnt : Nat) (pix : Nat → Nat) (dataIndex x k : Nat), k < cnt →
      (scatterRowNoAlpha pix base data ofs dataIndex x cnt).1 (base + (x + k) * 4 + 3) =
        255 := by
  intro cnt
  induction cnt with
  | zero => intro pix di x k hk; omega
  | succ cnt ih =>
    intro pix di x k hk
    simp only [scatterRowNoAlpha]
    cases k with
    | zero =>
      rw [scatterRowNoAlpha_frame data base ofs cnt _ (di + 1) (x + 1)
        (base + (x + 0) * 4 + 3) (by intro k' c' hk' hc'; omega)]
      simp only [Function.update_apply]
      split_ifs with h3
      · rfl
      all_goals (exfalso; omega)
    | succ k' =>
      have hx : x + (k' + 1) = x + 1 + k' := by omega
      rw [hx]
      exact ih _ (di + 1) (x + 1) k' (by omega)

theorem scatterRowsNoAlpha_out (data : List Nat) (stride ofs left w : Nat) :
    ∀ (rows : Nat) (pix : Nat → Nat) (dataIndex y : Nat),
      (scatterRowsNoAlpha pix stride data ofs dataIndex left w y rows).2 =
        dataIndex + rows * w := by
  intro rows
  induction rows with
  | zero => intro pix di y; simp [scatterRowsNoAlpha]
  | succ rows ih =>
    intro pix di y
    simp only [scatterRowsNoAlpha]
    rw [ih, scatterRowNoAlpha_out]
    ring

theorem scatterRowsNoAlpha_frame (data : List Nat) (stride ofs left w : Nat) :
    ∀ (rows : Nat) (pix : Nat → Nat) (dataIndex y q : Nat),
      (∀ j k c : Nat, j < rows → k < w → c < 4 →
        q ≠ stride * (y + j) + (left + k) * 4 + c) →
      (scatterRowsNoAlpha pix stride data ofs dataIndex left w y rows).1 q = pix q := by
  intro rows
  induction rows with
  | zero => intro pix di y q hq; rfl
  | succ rows ih =>
    intro pix di y q hq
    simp only [scatterRowsNoAlpha]
    rw [ih _ _ (y + 1) q (by
      intro j k c hj hk hc
      have h := hq (j + 1) k c (by omega) hk hc
      have hyj : y + (j + 1) = y + 1 + j := by omega
      rw [hyj] at h
      exact h)]
    rw [scatterRowNoAlpha_frame data (stride * y) ofs w pix di left q (by
      intro k c hk hc
      have h := hq 0 k c (by omega) hk hc
      rw [Nat.add_zero] at h
      exact h)]

theorem scatterRowsNoAlpha_value (data : List Nat) (stride ofs left w : Nat)
    (hs : 4 * (left + w) ≤ stride) :
    ∀ (rows : Nat) (pix : Nat → Nat) (dataIndex y j k c : Nat),
      j < rows → k < w → c < 3 →
      (scatterRowsNoAlpha pix stride data ofs dataIndex left w y rows).1
          (stride * (y + j) + (left + k) * 4 + c) =
        data.getD (dataIndex + j * w + k + c * ofs) 0 := by
  intro rows
  induction rows with
  | zero => intro pix di y j k c hj hk hc; omega
  | succ rows ih =>
    intro pix di y j k c hj hk hc
    simp only [scatterRowsNoAlpha]
    cases j with
    | zero =>
      rw [scatterRowsNoAlpha_frame data stride ofs left w rows _ _ (y + 1)
        (stride * (y + 0) + (left + k) * 4 + c) (by
          intro j' k' c' hj' hk' hc'
          have e1 : stride * (y + 1 + j') = stride * (y + 0) + stride * (1 + j') := by ring
          have e2 : stride ≤ stride * (1 + j') := by
            have h := Nat.mul_le_mul_left stride (show 1 ≤ 1 + j' by omega)
            simpa using h
          omega)]
      rw [Nat.add_zero]
      rw [scatterRowNoAlpha_value data (stride * y) ofs w pix di left k c hk hc]
      congr 1
      have hw0 : 0 * w = 0 := by ring
      omega
    | succ j' =>
      have hyj : y + (j' + 1) = y + 1 + j' := by omega
      rw [hyj]
      rw [ih _ _ (y + 1) j' k c (by omega) hk hc]
      rw [scatterRowNoAlpha_out]
      congr 1
      have hw : (j' + 1) * w = j' * w + w := by ring
      omega

theorem scatterRowsNoAlpha_alpha (data : List Nat) (stride ofs left w : Nat)
    (hs : 4 * (left + w) ≤ stride) :
    ∀ (rows : Nat) (pix : Nat → Nat) (dataIndex y j k : Nat),
      j < rows → k < w →
      (scatterRowsNoAlpha pix stride data ofs dataIndex left w y rows).1
          (stride * (y + j) + (left + k) * 4 + 3) = 255 := by
  intro rows
  induction rows with
  | zero => intro pix di y j k hj hk; omega
  | succ rows ih =>
    intro pix di y j k hj hk
    simp only [scatterRowsNoAlpha]
    cases j with
    | zero =>
      rw [scatterRowsNoAlpha_frame data stride ofs left w rows _ _ (y + 1)
        (stride * (y + 0) + (left + k) * 4 + 3) (by
          intro j' k' c' hj' hk' hc'
          have e1 : stride * (y + 1 + j') = stride * (y + 0) + stride * (1 + j') := by ring
          have e2 : stride ≤ stride * (1 + j') := by
            have h := Nat.mul_le_mul_left stride (show 1 ≤ 1 + j' by omega)
            simpa using h
          omega)]
      rw [Nat.add_zero]
      exact scatterRowNoAlpha_alpha data (stride * y) ofs w pix di left k hk
    | succ j' =>
      have hyj : y + (j' + 1) = y + 1 + j' := by omega
      rw [hyj]
      exact ih _ _ (y + 1) j' k (by omega) hk

/-- PixOffset of a Go image.RGBA with bounds Rect(minX, minY, ...) (stdlib
image package, used to read the Layer's pixels back in canvas coordinates):
the byte index of pixel (x, y) is (y-minY)*Stride + (x-minX)*4. -/
def rgbaPixIndex (minX minY : Int) (stride : Nat) (x y : Int) : Int :=
  (y - minY) * stride + (x - minX) * 4

/-- C4: for an alpha tile (4 bytes per pixel) the planar scratch buffer's
plane c maps to output channel c (0=red, 1=green, 2=blue, 3=alpha),
scanline-major over exactly the tile's w×h pixels, reading
data[dataIndex + c*ofs] with ofs = len(data)/4 = w*h — no crosstalk; for a
no-alpha tile (3 bytes per pixel) planes 0-2 map to red, green, blue and the
alpha byte is the constant 255; and the buffer index written for tile pixel
(left+i, top+j), Stride*(top+j) + (left+i)*4, is exactly the PixOffset of
canvas point (layerX + (left+i), layerY + (top+j)) in the image whose bounds
start at the layer position (layerX, layerY). -/
theorem claim_C4_planar_deinterleave :
    (∀ (pix : Nat → Nat) (stride : Nat) (data : List Nat) (left top w h : Nat),
       data.length = w * h * 4 → 4 * (left + w) ≤ stride →
       ∀ i j c : Nat, i < w → j < h → c < 4 →
         scatterTileAlpha pix stride data left top w h
             (stride * (top + j) + (left + i) * 4 + c) =
           data.getD (j * w + i + c * (w * h)) 0)
  ∧ (∀ (pix : Nat → Nat) (stride : Nat) (data : List Nat) (left top w h : Nat),
       data.length = w * h * 3 → 4 * (left + w) ≤ stride →
       ∀ i j c : Nat, i < w → j < h → c < 3 →
         scatterTileNoAlpha pix stride data left top w h
             (stride * (top + j) + (left + i) * 4 + c) =
           data.getD (j * w + i + c * (w * h)) 0)
  ∧ (∀ (pix : Nat → Nat) (stride : Nat) (data : List Nat) (left top w h : Nat),
       4 * (left + w) ≤ stride →
       ∀ i j : Nat, i < w → j < h →
         scatterTileNoAlpha pix stride data left top w h
             (stride * (top + j) + (left + i) * 4 + 3) = 255)
  ∧ (∀ (layerX layerY : Int) (stride px py : Nat),
       rgbaPixIndex layerX layerY stride (layerX + px) (layerY + py) =
         ((stride * py + px * 4 : Nat) : Int)) := by
  refine ⟨?_, ?_, ?_, ?_⟩
  · intro pix stride data left top w h hlen hs i j c hi hj hc
    rw [scatterTileAlpha]
    rw [scatterRowsAlpha_value data stride (data.length / 4) left w hs h pix 0 top j i c
      hj hi hc]
    congr 1
    have hofs : data.length / 4 = w * h := by omega
    rw [hofs]
    omega
  · intro pix stride data left top w h hlen hs i j c hi hj hc
    rw [scatterTileNoAlpha]
    rw [scatterRowsNoAlpha_value data stride (data.length / 3) left w hs h pix 0 top j i c
      hj hi hc]
    congr 1
    have hofs : data.length / 3 = w * h := by omega
    rw [hofs]
    omega
  · intro pix stride data left top w h hs i j hi hj
    rw [scatterTileNoAlpha]
    exact scatterRowsNoAlpha_alpha data stride (data.length / 3) left w hs h pix 0 top j i
      hj hi
  · intro layerX layerY stride px py
    rw [rgbaPixIndex]
    push_cast
    ring

/-- Witness for C4: a concrete 2×1 alpha tile, a concrete 1×1 no-alpha tile,
its constant alpha, and a concrete pixel index. -/
theorem claim_C4_planar_deinterleave_witness :
    scatterTileAlpha (fun _ => 0) 8 [10, 11, 20, 21, 30, 31, 40, 41] 0 0 2 1
        (8 * (0 + 0) + (0 + 1) * 4 + 2) = [10, 11, 20, 21, 30, 31, 40, 41].getD
        (0 * 2 + 1 + 2 * (2 * 1)) 0 ∧
    scatterTileNoAlpha (fun _ => 0) 4 [7, 8, 9] 0 0 1 1
        (4 * (0 + 0) + (0 + 0) * 4 + 1) = [7, 8, 9].getD (0 * 1 + 0 + 1 * (1 * 1)) 0 ∧
    scatterTileNoAlpha (fun _ => 0) 4 [7, 8, 9] 0 0 1 1
        (4 * (0 + 0) + (0 + 0) * 4 + 3) = 255 ∧
    rgbaPixIndex (-3) 5 8 (-3 + 1) (5 + 2) = ((8 * 2 + 1 * 4 : Nat) : Int) :=
  ⟨claim_C4_planar_deinterleave.1 (fun _ => 0) 8 [10, 11, 20, 21, 30, 31, 40, 41] 0 0 2 1
     (by decide) (by decide) 1 0 2 (by decide) (by decide) (by decide),
   claim_C4_planar_deinterleave.2.1 (fun _ => 0) 4 [7, 8, 9] 0 0 1 1
     (by decide) (by decide) 0 0 1 (by decide) (by decide) (by decide),
   claim_C4_planar_deinterleave.2.2.1 (fun _ => 0) 4 [7, 8, 9] 0 0 1 1
     (by decide) 0 0 (by decide) (by decide),
   claim_C4_planar_deinterleave.2.2.2 (-3) 5 8 1 2⟩

/-! ### Claim C7 : loadLayer's property loop (xcf.go lines 288-323) -/

/-- State accumulated by loadLayer's property loop: the Visible field starts
true (line 289), Opacity starts at Go's zero value, and the offsets x, y
start at 0 (line 290). -/
structure LayerPropState where
  visible : Bool
  opacity : Nat
  x : Int
  y : Int
deriving Repr, DecidableEq

/-- The accumulator before the loop runs: visible = true, opacity = 0,
offsets (0, 0). -/
def initLayerPropState : LayerPropState := ⟨true, 0, 0, 0⟩

/-- loadLayer's property loop (xcf.go lines 291-323): read an 8-byte
property header; stop at propEnd (0); propOffsets (15) reads two int32s;
propVisible (8) reads a uint32, non-zero means visible; propOpacity (6)
reads a uint32 truncated to its low 8 bits by uint8(opacity); anything else
is skipped by its declared length (failure to do so is an error).  Fuel only
bounds the iteration count (each iteration consumes at least 8 bytes). -/
def readLayerPropsAux : Nat → File → LayerPropState → Option (LayerPropState × File)
  | 0, _, _ => none
  | fuel + 1, f, st =>
    match readN f 8 with
    | none => none
    | some (hb, f₁) =>
      let magic := u32At hb 0
      let length := u32At hb 4
      if magic = 0 then some (st, f₁)
      else if magic = 15 then
        match readU32 f₁ with
        | none => none
        | some (xv, f₂) =>
          match readU32 f₂ with
          | none => none
          | some (yv, f₃) =>
            readLayerPropsAux fuel f₃ { st with x := toI32 xv, y := toI32 yv }
      else if magic = 8 then
        match readU32 f₁ with
        | none => none
        | some (v, f₂) => readLayerPropsAux fuel f₂ { st with visible := v != 0 }
      else if magic = 6 then
        match readU32 f₁ with
        | none => none
        | some (v, f₂) => readLayerPropsAux fuel f₂ { st with opacity := v % 256 }
      else
        if f₁.pos + length ≤ f₁.data.length then
          readLayerPropsAux fuel ⟨f₁.data, f₁.pos + length⟩ st
        else none

/-- The property loop with its canonical fuel. -/
def readLayerProps (f : File) (st : LayerPropState) : Option (LayerPropState × File) :=
  readLayerPropsAux (f.data.length + 1) f st

/-- Big-endian 4-byte layout of a uint32 value (modelling device used to
quantify over encoded property sequences). -/
def u32bytes (n : Nat) : List Nat :=
  [n / 16777216 % 256, n / 65536 % 256, n / 256 % 256, n % 256]

theorem u32bytes_length (n : Nat) : (u32bytes n).length = 4 := rfl

theorem beVal_u32bytes {n : Nat} (h : n < 4294967296) : beVal (u32bytes n) = n := by
  simp [beVal, u32bytes, List.foldl]
  omega

theorem take4_append (bs tl : List Nat) (h : bs.length = 4) : (bs ++ tl).take 4 = bs := by
  rw [← h, List.take_left]

theorem drop4_append (bs tl : List Nat) (h : bs.length = 4) : (bs ++ tl).drop 4 = tl := by
  rw [← h, List.drop_left]

theorem u32At_pair_fst {m : Nat} (l : Nat) (hm : m < 4294967296) (tl : List Nat) :
    u32At ((u32bytes m ++ u32bytes l) ++ tl) 0 = m := by
  rw [u32At, List.drop_zero, List.append_assoc,
    take4_append _ _ (u32bytes_length m), beVal_u32bytes hm]

theorem u32At_pair_snd (m : Nat) {l : Nat} (hl : l < 4294967296) (tl : List Nat) :
    u32At ((u32bytes m ++ u32bytes l) ++ tl) 4 = l := by
  rw [u32At, List.append_assoc, drop4_append _ _ (u32bytes_length m),
    take4_append _ _ (u32bytes_length l), beVal_u32bytes hl]

theorem rem_readU32enc {f : File} (n : Nat) (tl : List Nat)
    (hw : f.pos ≤ f.data.length) (h : f.rem = u32bytes n ++ tl) (hn : n < 4294967296) :
    readU32 f = some (n, ⟨f.data, f.pos + 4⟩) ∧ f.pos + 4 ≤ f.data.length ∧
      File.rem ⟨f.data, f.pos + 4⟩ = tl := by
  obtain ⟨h1, h2, h3⟩ := rem_readN (u32bytes n) tl 4 hw h (u32bytes_length n)
  refine ⟨?_, h2, h3⟩
  rw [readU32, h1]
  simp [beVal_u32bytes hn]

/-- Abstract well-formed layer property records; encodeLayerProp lays each
out exactly as the property stream parsed by loadLayer's loop. -/
inductive LayerProp where
  | offsets (xv yv : Nat)
  | visible (v : Nat)
  | opacity (v : Nat)
  | other (tag : Nat) (payload : List Nat)
deriving Repr, DecidableEq

def encodeLayerProp : LayerProp → List Nat
  | .offsets xv yv => (u32bytes 15 ++ u32bytes 8) ++ (u32bytes xv ++ u32bytes yv)
  | .visible v => (u32bytes 8 ++ u32bytes 4) ++ u32bytes v
  | .opacity v => (u32bytes 6 ++ u32bytes 4) ++ u32bytes v
  | .other tag payload => (u32bytes tag ++ u32bytes payload.length) ++ payload

def encodeLayerProps : List LayerProp → List Nat
  | [] => u32bytes 0 ++ u32bytes 0
  | p :: ps => encodeLayerProp p ++ encodeLayerProps ps

/-- Well-formedness: multi-byte fields fit in uint32 and an "other" record
does not use one of the four recognized tags. -/
def WFLayerProp : LayerProp → Prop
  | .offsets xv yv => xv < 4294967296 ∧ yv < 4294967296
  | .visible v => v < 4294967296
  | .opacity v => v < 4294967296
  | .other tag payload =>
      tag ≠ 0 ∧ tag ≠ 15 ∧ tag ≠ 8 ∧ tag ≠ 6 ∧ tag < 4294967296 ∧
        payload.length < 4294967296

instance : ∀ p : LayerProp, Decidable (WFLayerProp p)
  | .offsets _ _ => inferInstanceAs (Decidable (_ ∧ _))
  | .visible _ => inferInstanceAs (Decidable (_ < _))
  | .opacity _ => inferInstanceAs (Decidable (_ < _))
  | .other _ _ => inferInstanceAs (Decidable (_ ∧ _))

/-- The effect of one parsed property on the loop state. -/
def applyLayerProp (st : LayerPropState) : LayerProp → LayerPropState
  | .offsets xv yv => { st with x := toI32 xv, y := toI32 yv }
  | .visible v => { st with visible := v != 0 }
  | .opacity v => { st with opacity := v % 256 }
  | .other _ _ => st

theorem u32At_hdr_fst (m l : Nat) (hm : m < 4294967296) :
    u32At (u32bytes m ++ u32bytes l) 0 = m := by
  rw [u32At, List.drop_zero, take4_append _ _ (u32bytes_length m), beVal_u32bytes hm]

theorem u32At_hdr_snd (m l : Nat) (hl : l < 4294967296) :
    u32At (u32bytes m ++ u32bytes l) 4 = l := by
  rw [u32At, drop4_append _ _ (u32bytes_length m), ← u32bytes_length l, List.take_length,
    beVal_u32bytes hl]

/-- Running loadLayer's property loop over an encoded well-formed property
sequence applies exactly the per-property state updates in order, stops at
the end marker, and leaves the cursor right after it. -/
theorem readLayerPropsAux_encode :
    ∀ (ps : List LayerProp) (f : File) (st : LayerPropState) (rest : List Nat) (fuel : Nat),
      (∀ p ∈ ps, WFLayerProp p) →
      f.pos ≤ f.data.length →
      f.rem = encodeLayerProps ps ++ rest →
      f.rem.length < fuel →
      readLayerPropsAux fuel f st =
        some (ps.foldl applyLayerProp st,
          ⟨f.data, f.pos + (encodeLayerProps ps).length⟩) := by
  intro ps
  induction ps with
  | nil =>
    intro f st rest fuel hwf hw hrem hfuel
    cases fuel with
    | zero => omega
    | succ fuel =>
      obtain ⟨h1, hw1, hr1⟩ := rem_readN (u32bytes 0 ++ u32bytes 0) rest 8 hw
        (by rw [hrem]; rfl) rfl
      rw [readLayerPropsAux, h1]
      simp only
      rw [u32At_hdr_fst 0 0 (by norm_num)]
      rw [if_pos rfl]
      rfl
  | cons p ps ih =>
    intro f st rest fuel hwf hw hrem hfuel
    cases fuel with
    | zero => omega
    | succ fuel =>
      have hwfp := hwf p (List.mem_cons_self p ps)
      have hwfps : ∀ q ∈ ps, WFLayerProp q := fun q hq => hwf q (List.mem_cons_of_mem p hq)
      have hL := congrArg List.length hrem
      cases p with
      | offsets xv yv =>
        obtain ⟨hx, hy⟩ := hwfp
        obtain ⟨h1, hw1, hr1⟩ := rem_readN (u32bytes 15 ++ u32bytes 8)
          ((u32bytes xv ++ u32bytes yv) ++ (encodeLayerProps ps ++ rest)) 8 hw
          (by rw [hrem]; simp only [encodeLayerProps, encodeLayerProp, List.append_assoc])
          rfl
        rw [readLayerPropsAux, h1]
        simp only
        rw [u32At_hdr_fst 15 8 (by norm_num), u32At_hdr_snd 15 8 (by norm_num)]
        rw [if_neg (by norm_num), if_pos rfl]
        obtain ⟨h2, hw2, hr2⟩ := rem_readU32enc xv
          (u32bytes yv ++ (encodeLayerProps ps ++ rest)) hw1
          (by rw [hr1, List.append_assoc]) hx
        rw [h2]
        simp only
        obtain ⟨h3, hw3, hr3⟩ := rem_readU32enc yv (encodeLayerProps ps ++ rest) hw2
          (by rw [hr2]) hy
        rw [h3]
        simp only
        have hlen : (encodeLayerProps ps ++ rest).length < fuel := by
          simp only [encodeLayerProps, encodeLayerProp, List.length_append, u32bytes,
            List.length_cons, List.length_nil] at hL
          simp only [List.length_append] at hL ⊢
          omega
        rw [ih ⟨f.data, f.pos + 8 + 4 + 4⟩ _ rest fuel hwfps hw3 (by rw [hr3]) (by
          rw [show File.rem ⟨f.data, f.pos + 8 + 4 + 4⟩ =
            encodeLayerProps ps ++ rest from hr3]
          exact hlen)]
        simp only [List.foldl_cons, applyLayerProp, Option.some.injEq, Prod.mk.injEq,
          File.mk.injEq]
        have hEL : (encodeLayerProps (LayerProp.offsets xv yv :: ps)).length =
            16 + (encodeLayerProps ps).length := by
          simp [encodeLayerProps, encodeLayerProp, u32bytes]
          omega
        refine ⟨trivial, trivial, ?_⟩
        omega
      | visible v =>
        have hv := hwfp
        obtain ⟨h1, hw1, hr1⟩ := rem_readN (u32bytes 8 ++ u32bytes 4)
          (u32bytes v ++ (encodeLayerProps ps ++ rest)) 8 hw
          (by rw [hrem]; simp only [encodeLayerProps, encodeLayerProp, List.append_assoc])
          rfl
        rw [readLayerPropsAux, h1]
        simp only
        rw [u32At_hdr_fst 8 4 (by norm_num), u32At_hdr_snd 8 4 (by norm_num)]
        rw [if_neg (by norm_num), if_neg (by norm_num), if_pos rfl]
        obtain ⟨h2, hw2, hr2⟩ := rem_readU32enc v (encodeLayerProps ps ++ rest) hw1
          (by rw [hr1]) hv
        rw [h2]
        simp only
        have hlen : (encodeLayerProps ps ++ rest).length < fuel := by
          simp only [encodeLayerProps, encodeLayerProp, List.length_append, u32bytes,
            List.length_cons, List.length_nil] at hL
          simp only [List.length_append] at hL ⊢
          omega
        rw [ih ⟨f.data, f.pos + 8 + 4⟩ _ rest fuel hwfps hw2 (by rw [hr2]) (by
          rw [show File.rem ⟨f.data, f.pos + 8 + 4⟩ =
            encodeLayerProps ps ++ rest from hr2]
          exact hlen)]
        simp only [List.foldl_cons, applyLayerProp, Option.some.injEq, Prod.mk.injEq,
          File.mk.injEq]
        have hEL : (encodeLayerProps (LayerProp.visible v :: ps)).length =
            12 + (encodeLayerProps ps).length := by
          simp [encodeLayerProps, encodeLayerProp, u32bytes]
          omega
        refine ⟨trivial, trivial, ?_⟩
        omega
      | opacity v =>
        have hv := hwfp
        obtain ⟨h1, hw1, hr1⟩ := rem_readN (u32bytes 6 ++ u32bytes 4)
          (u32bytes v ++ (encodeLayerProps ps ++ rest)) 8 hw
          (by rw [hrem]; simp only [encodeLayerProps, encodeLayerProp, List.append_assoc])
          rfl
        rw [readLayerPropsAux, h1]
        simp only
        rw [u32At_hdr_fst 6 4 (by norm_num), u32At_hdr_snd 6 4 (by norm_num)]
        rw [if_neg (by norm_num), if_neg (by norm_num), if_neg (by norm_num), if_pos rfl]
        obtain ⟨h2, hw2, hr2⟩ := rem_readU32enc v (encodeLayerProps ps ++ rest) hw1
          (by rw [hr1]) hv
        rw [h2]
        simp only
        have hlen : (encodeLayerProps ps ++ rest).length < fuel := by
          simp only [encodeLayerProps, encodeLayerProp, List.length_append, u32bytes,
            List.length_cons, List.length_nil] at hL
          simp only [List.length_append] at hL ⊢
          omega
        rw [ih ⟨f.data, f.pos + 8 + 4⟩ _ rest fuel hwfps hw2 (by rw [hr2]) (by
          rw [show File.rem ⟨f.data, f.pos + 8 + 4⟩ =
            encodeLayerProps ps ++ rest from hr2]
          exact hlen)]
        simp only [List.foldl_cons, applyLayerProp, Option.some.injEq, Prod.mk.injEq,
          File.mk.injEq]
        have hEL : (encodeLayerProps (LayerProp.opacity v :: ps)).length =
            12 + (encodeLayerProps ps).length := by
          simp [encodeLayerProps, encodeLayerProp, u32bytes]
          omega
        refine ⟨trivial, trivial, ?_⟩
        omega
      | other tag payload =>
        obtain ⟨ht0, ht15, ht8, ht6, htlt, hplt⟩ := hwfp
        obtain ⟨h1, hw1, hr1⟩ := rem_readN (u32bytes tag ++ u32bytes payload.length)
          (payload ++ (encodeLayerProps ps ++ rest)) 8 hw
          (by rw [hrem]; simp only [encodeLayerProps, encodeLayerProp, List.append_assoc])
          rfl
        rw [readLayerPropsAux, h1]
        simp only
        rw [u32At_hdr_fst tag payload.length htlt,
          u32At_hdr_snd tag payload.length hplt]
        rw [if_neg ht0, if_neg ht15, if_neg ht8, if_neg ht6]
        obtain ⟨h2, hw2, hr2⟩ := rem_readN payload (encodeLayerProps ps ++ rest)
          payload.length hw1 (by rw [hr1]) rfl
        rw [if_pos hw2]
        have hlen : (encodeLayerProps ps ++ rest).length < fuel := by
          simp only [encodeLayerProps, encodeLayerProp, List.length_append, u32bytes,
            List.length_cons, List.length_nil] at hL
          simp only [List.length_append] at hL ⊢
          omega
        rw [ih ⟨f.data, f.pos + 8 + payload.length⟩ _ rest fuel hwfps hw2 (by rw [hr2]) (by
          rw [show File.rem ⟨f.data, f.pos + 8 + payload.length⟩ =
            encodeLayerProps ps ++ rest from hr2]
          exact hlen)]
        simp only [List.foldl_cons, applyLayerProp, Option.some.injEq, Prod.mk.injEq,
          File.mk.injEq]
        have hEL : (encodeLayerProps (LayerProp.other tag payload :: ps)).length =
            8 + payload.length + (encodeLayerProps ps).length := by
          simp [encodeLayerProps, encodeLayerProp, u32bytes]
          omega
        refine ⟨trivial, trivial, ?_⟩
        omega

def isVisibleProp : LayerProp → Bool
  | .visible _ => true
  | _ => false

def isOpacityProp : LayerProp → Bool
  | .opacity _ => true
  | _ => false

def isOffsetsProp : LayerProp → Bool
  | .offsets _ _ => true
  | _ => false

theorem foldl_visible_invariant :
    ∀ (ps : List LayerProp) (st : LayerPropState), (∀ p ∈ ps, isVisibleProp p = false) →
      (ps.foldl applyLayerProp st).visible = st.visible := by
  intro ps
  induction ps with
  | nil => intro st h; rfl
  | cons p ps ih =>
    intro st h
    rw [List.foldl_cons, ih _ (fun q hq => h q (List.mem_cons_of_mem p hq))]
    have hp := h p (List.mem_cons_self p ps)
    cases p with
    | visible v => simp [isVisibleProp] at hp
    | offsets a b => rfl
    | opacity v => rfl
    | other t pl => rfl

theorem foldl_opacity_invariant :
    ∀ (ps : List LayerProp) (st : LayerPropState), (∀ p ∈ ps, isOpacityProp p = false) →
      (ps.foldl applyLayerProp st).opacity = st.opacity := by
  intro ps
  induction ps with
  | nil => intro st h; rfl
  | cons p ps ih =>
    intro st h
    rw [List.foldl_cons, ih _ (fun q hq => h q (List.mem_cons_of_mem p hq))]
    have hp := h p (List.mem_cons_self p ps)
    cases p with
    | opacity v => simp [isOpacityProp] at hp
    | offsets a b => rfl
    | visible v => rfl
    | other t pl => rfl

theorem foldl_offsets_invariant :
    ∀ (ps : List LayerProp) (st : LayerPropState), (∀ p ∈ ps, isOffsetsProp p = false) →
      (ps.foldl applyLayerProp st).x = st.x ∧ (ps.foldl applyLayerProp st).y = st.y := by
  intro ps
  induction ps with
  | nil => intro st h; exact ⟨rfl, rfl⟩
  | cons p ps ih =>
    intro st h
    rw [List.foldl_cons]
    have hrec := ih (applyLayerProp st p) (fun q hq => h q (List.mem_cons_of_mem p hq))
    have hp := h p (List.mem_cons_self p ps)
    cases p with
    | offsets a b => simp [isOffsetsProp] at hp
    | opacity v => exact hrec
    | visible v => exact hrec
    | other t pl => exact hrec

/-- C7: parsing an encoded well-formed property sequence folds the
per-property updates over the initial state (visible = true, opacity = 0,
offsets (0,0)); a sequence without a Visible property leaves visible = true,
a present Visible property (the last one) sets visibility iff its 4-byte
value is non-zero, a sequence without an Opacity property leaves opacity 0,
a present Opacity property keeps only the low 8 bits of its value, and a
sequence without an Offsets property leaves the offset (0, 0). -/
theorem claim_C7_layer_prop_defaults :
    (∀ (ps : List LayerProp) (rest : List Nat), (∀ p ∈ ps, WFLayerProp p) →
       readLayerProps ⟨encodeLayerProps ps ++ rest, 0⟩ initLayerPropState =
         some (ps.foldl applyLayerProp initLayerPropState,
           ⟨encodeLayerProps ps ++ rest, (encodeLayerProps ps).length⟩))
  ∧ (∀ ps : List LayerProp, (∀ p ∈ ps, isVisibleProp p = false) →
       (ps.foldl applyLayerProp initLayerPropState).visible = true)
  ∧ (∀ (l r : List LayerProp) (v : Nat), (∀ p ∈ r, isVisibleProp p = false) →
       ((l ++ LayerProp.visible v :: r).foldl applyLayerProp initLayerPropState).visible =
         (v != 0))
  ∧ (∀ ps : List LayerProp, (∀ p ∈ ps, isOpacityProp p = false) →
       (ps.foldl applyLayerProp initLayerPropState).opacity = 0)
  ∧ (∀ (l r : List LayerProp) (v : Nat), (∀ p ∈ r, isOpacityProp p = false) →
       ((l ++ LayerProp.opacity v :: r).foldl applyLayerProp initLayerPropState).opacity =
         v % 256)
  ∧ (∀ ps : List LayerProp, (∀ p ∈ ps, isOffsetsProp p = false) →
       (ps.foldl applyLayerProp initLayerPropState).x = 0 ∧
       (ps.foldl applyLayerProp initLayerPropState).y = 0) := by
  refine ⟨?_, ?_, ?_, ?_, ?_, ?_⟩
  · intro ps rest hwf
    rw [readLayerProps]
    rw [readLayerPropsAux_encode ps ⟨encodeLayerProps ps ++ rest, 0⟩ initLayerPropState rest
      _ hwf (Nat.zero_le _) rfl (by simp [File.rem])]
    norm_num
  · intro ps h
    rw [foldl_visible_invariant ps initLayerPropState h]
    rfl
  · intro l r v h
    rw [List.foldl_append, List.foldl_cons,
      foldl_visible_invariant r _ h]
    rfl
  · intro ps h
    rw [foldl_opacity_invariant ps initLayerPropState h]
    rfl
  · intro l r v h
    rw [List.foldl_append, List.foldl_cons,
      foldl_opacity_invariant r _ h]
    rfl
  · intro ps h
    exact foldl_offsets_invariant ps initLayerPropState h

/-- Witness for C7: a concrete property sequence with an opacity record of
value 300 and an unknown skipped record; the defaults and last-wins rules at
concrete sequences. -/
theorem claim_C7_layer_prop_defaults_witness :
    readLayerProps
        ⟨encodeLayerProps [LayerProp.opacity 300, LayerProp.other 42 [9, 9]] ++ [1, 2], 0⟩
        initLayerPropState =
      some ([LayerProp.opacity 300, LayerProp.other 42 [9, 9]].foldl applyLayerProp
          initLayerPropState,
        ⟨encodeLayerProps [LayerProp.opacity 300, LayerProp.other 42 [9, 9]] ++ [1, 2],
          (encodeLayerProps [LayerProp.opacity 300, LayerProp.other 42 [9, 9]]).length⟩) ∧
    ([LayerProp.opacity 300].foldl applyLayerProp initLayerPropState).visible = true ∧
    (([] ++ LayerProp.visible 7 :: []).foldl applyLayerProp
        initLayerPropState).visible = (7 != 0) ∧
    ([LayerProp.visible 0].foldl applyLayerProp initLayerPropState).opacity = 0 ∧
    (([LayerProp.opacity 9] ++ LayerProp.opacity 300 :: []).foldl applyLayerProp
        initLayerPropState).opacity = 300 % 256 ∧
    ([LayerProp.opacity 300].foldl applyLayerProp initLayerPropState).x = 0 :=
  ⟨claim_C7_layer_prop_defaults.1 [LayerProp.opacity 300, LayerProp.other 42 [9, 9]] [1, 2]
     (by decide),
   claim_C7_layer_prop_defaults.2.1 [LayerProp.opacity 300] (by decide),
   claim_C7_layer_prop_defaults.2.2.1 [] [] 7 (by decide),
   claim_C7_layer_prop_defaults.2.2.2.1 [LayerProp.visible 0] (by decide),
   claim_C7_layer_prop_defaults.2.2.2.2.1 [LayerProp.opacity 9] [] 300 (by decide),
   (claim_C7_layer_prop_defaults.2.2.2.2.2 [LayerProp.opacity 300] (by decide)).1⟩

/-! ### Claim C8 : readString (xcf.go lines 248-267) -/

/-- readString: a 4-byte big-endian length field; a length of exactly 0
denotes the empty string with no further bytes consumed; otherwise exactly
length bytes are read and the last of them (the zero terminator) is
dropped.  The name read at xcf.go line 260 is a bare d.r.Read, so on a
stream truncated inside the name the Go code actually keeps the zero tail
of the freshly made buffer and succeeds where this idealized all-or-error
model fails; claim C8 is about streams containing the declared bytes, where
the two agree. -/
def readString (f : File) : Option (List Nat × File) :=
  match readU32 f with
  | none => none
  | some (length, f₁) =>
    if length = 0 then some ([], f₁)
    else
      match readN f₁ length with
      | none => none
      | some (data, f₂) => some (data.take (length - 1), f₂)

/-- C8: a declared length of 0 decodes to the empty string consuming exactly
the 4 length bytes and nothing more; a declared length n ≥ 1 consumes
exactly n further bytes and decodes to the first n-1 of them; in particular
length 0 and length 1 both yield the empty string while consuming 0 and 1
bytes beyond the length field respectively. -/
theorem claim_C8_readString :
    (∀ (f : File) (rest : List Nat), f.pos ≤ f.data.length →
       f.rem = u32bytes 0 ++ rest →
       readString f = some ([], ⟨f.data, f.pos + 4⟩))
  ∧ (∀ (f : File) (n : Nat) (s rest : List Nat), f.pos ≤ f.data.length →
       1 ≤ n → n < 4294967296 → s.length = n →
       f.rem = u32bytes n ++ (s ++ rest) →
       readString f = some (s.take (n - 1), ⟨f.data, f.pos + 4 + n⟩))
  ∧ readString ⟨u32bytes 0 ++ [99], 0⟩ = some ([], ⟨u32bytes 0 ++ [99], 4⟩)
  ∧ readString ⟨u32bytes 1 ++ ([0] ++ [99]), 0⟩ =
      some ([], ⟨u32bytes 1 ++ ([0] ++ [99]), 5⟩) := by
  refine ⟨?_, ?_, by decide, by decide⟩
  · intro f rest hw hrem
    obtain ⟨h1, hw1, hr1⟩ := rem_readU32enc 0 rest hw hrem (by norm_num)
    rw [readString, h1]
    simp only
    rw [if_true]
  · intro f n s rest hw hn1 hn2 hs hrem
    obtain ⟨h1, hw1, hr1⟩ := rem_readU32enc n (s ++ rest) hw hrem hn2
    rw [readString, h1]
    simp only
    rw [if_neg (by omega)]
    obtain ⟨h2, hw2, hr2⟩ := rem_readN s rest n hw1 hr1 hs
    rw [h2]

/-- Witness for C8: both general conjuncts at a concrete stream. -/
theorem claim_C8_readString_witness :
    readString ⟨u32bytes 0 ++ [7, 7], 0⟩ = some ([], ⟨u32bytes 0 ++ [7, 7], 4⟩) ∧
    readString ⟨u32bytes 3 ++ ([104, 105, 0] ++ [7]), 0⟩ =
      some ([104, 105, 0].take (3 - 1), ⟨u32bytes 3 ++ ([104, 105, 0] ++ [7]), 0 + 4 + 3⟩) :=
  ⟨claim_C8_readString.1 ⟨u32bytes 0 ++ [7, 7], 0⟩ [7, 7] (by decide) (by decide),
   claim_C8_readString.2.1 ⟨u32bytes 3 ++ ([104, 105, 0] ++ [7]), 0⟩ 3 [104, 105, 0] [7]
     (by decide) (by decide) (by decide) (by decide) (by decide)⟩

/-! ### The full decoder (Decode, loadLayer, readImageData; xcf.go 67-452) -/

/-- A Go image.RGBA created by image.NewRGBA(Rect(minX, minY, minX+width,
minY+height)) (stdlib): Stride = 4*width, zero-initialized Pix buffer
modelled as a function from byte index to byte. -/
structure RGBAImage where
  minX : Int
  minY : Int
  width : Nat
  height : Nat
  stride : Nat
  pix : Nat → Nat

def mkRGBA (minX minY : Int) (w h : Nat) : RGBAImage :=
  ⟨minX, minY, w, h, 4 * w, fun _ => 0⟩

/-- A Layer (xcf.go lines 46-51); the name is a byte string. -/
structure Layer where
  Image : RGBAImage
  Name : List Nat
  Visible : Bool
  Opacity : Nat

/-- A Canvas (xcf.go lines 25-28): layers ordered top-most first. -/
structure Canvas where
  Width : Nat
  Height : Nat
  Layers : List Layer

/-- Error sites of the decoder.  `.diverge` stands for the infinite loop the
Go code enters when a read fails in the middle of the layer pointer list
(the ignored binary.Read error at xcf.go line 137 leaves ptr at its previous
non-zero value forever); `.outOfFuel` is unreachable under the canonical
fuel. -/
inductive XcfErr where
  | headerRead
  | badMagic
  | badVersion
  | badColorFormat
  | propHeaderRead
  | colormapCountRead
  | colormapSkip
  | compressionRead
  | badCompression
  | diverge
  | layerHeaderRead
  | badLayerFormat
  | stringRead
  | layerPropsRead
  | pixelPtrRead
  | maskPtrRead
  | hierHeaderRead
  | levelPtrRead
  | levelDimRead
  | tilePtrsRead
  | rleRead
  | rlePanic
  | outOfFuel
deriving Repr, DecidableEq

/-- Skip the unused level pointers (xcf.go lines 357-366): uint32s until a
zero sentinel, each consuming 4 bytes. -/
def skipLevelPointers : Nat → File → Option File
  | 0, _ => none
  | fuel + 1, f =>
    match readU32 f with
    | none => none
    | some (p, f₁) => if p = 0 then some f₁ else skipLevelPointers fuel f₁

/-- One tile (xcf.go lines 406-446): RLE-decode destByteCount = w*h*bpp
bytes into the reused scratch buffer (capacity 64*64*bpp), then scatter the
planar data into the interleaved Pix buffer; a color format other than
rgbAlpha (1) / rgbNoAlpha (0) writes nothing. -/
def doTile (f : File) (pix : Nat → Nat) (fmt bpp left top w h stride : Nat) :
    Except XcfErr ((Nat → Nat) × File) :=
  let destByteCount := w * h * bpp
  match decodeRLE f destByteCount (64 * 64 * bpp) with
  | .ioError => .error .rleRead
  | .panic => .error .rlePanic
  | .ok out f₁ =>
    let data := out.take destByteCount
    let pix₁ :=
      if fmt = 1 then scatterTileAlpha pix stride data left top w h
      else if fmt = 0 then scatterTileNoAlpha pix stride data left top w h
      else pix
    .ok (pix₁, f₁)

/-- Inner tileX loop (xcf.go lines 405-447) over one row of tiles: cols
columns remain, tileX is the current column; the last column is rightMost
pixels wide. -/
def tileRowLoop (fmt bpp stride tcx rightMost hRow tileY : Nat) :
    Nat → Nat → File → (Nat → Nat) → Except XcfErr ((Nat → Nat) × File)
  | 0, _, f, pix => .ok (pix, f)
  | cols + 1, tileX, f, pix =>
    let left := tileX * 64
    let top := tileY * 64
    let w := if tileX = tcx - 1 then rightMost else 64
    match doTile f pix fmt bpp left top w hRow stride with
    | .error e => .error e
    | .ok (pix₁, f₁) =>
      tileRowLoop fmt bpp stride tcx rightMost hRow tileY cols (tileX + 1) f₁ pix₁

/-- Outer tileY loop (xcf.go lines 404-448): the last row is bottomMost
pixels tall. -/
def tileRowsLoop (fmt bpp stride tcx tcy rightMost bottomMost : Nat) :
    Nat → Nat → File → (Nat → Nat) → Except XcfErr ((Nat → Nat) × File)
  | 0, _, f, pix => .ok (pix, f)
  | rows + 1, tileY, f, pix =>
    let hRow := if tileY = tcy - 1 then bottomMost else 64
    match tileRowLoop fmt bpp stride tcx rightMost hRow tileY tcx 0 f pix with
    | .error e => .error e
    | .ok (pix₁, f₁) =>
      tileRowsLoop fmt bpp stride tcx tcy rightMost bottomMost rows (tileY + 1) f₁ pix₁

/-- readImageData (xcf.go lines 349-452): seek to the pixel hierarchy, read
its 16-byte header (width and height are redundant and unused,
BytesPerPixel and the first level pointer are used), skip the remaining
level pointers, seek to the first level, discard its redundant dimensions,
read the tile pointer table (tileCountX*tileCountY entries plus the zero
sentinel — the pointers themselves are never used; tiles are decoded
sequentially from the cursor), then decode and scatter every tile in
row-major order. -/
def readImageData (f : File) (lw lh fmt : Nat) (layerX layerY : Int) (offset : Nat) :
    Except XcfErr (RGBAImage × File) :=
  let f₀ := seekTo f offset
  match readN f₀ 16 with
  | none => .error .hierHeaderRead
  | some (hb, f₁) =>
    let bpp := u32At hb 8
    let firstLevelPointer := u32At hb 12
    match skipLevelPointers (f₁.data.length + 1) f₁ with
    | none => .error .levelPtrRead
    | some f₂ =>
      let f₃ := seekTo f₂ firstLevelPointer
      match readU32 f₃ with
      | none => .error .levelDimRead
      | some (_, f₄) =>
        match readU32 f₄ with
        | none => .error .levelDimRead
        | some (_, f₅) =>
          let tcx := tileCountX lw
          let tcy := tileCountY lh
          let rightMost := rightMostTileWidth lw
          let bottomMost := bottomMostTileHeight lh
          let tileCount := tcx * tcy
          match readN f₅ (4 * (tileCount + 1)) with
          | none => .error .tilePtrsRead
          | some (_, f₆) =>
            let rgba := mkRGBA layerX layerY lw lh
            match tileRowsLoop fmt bpp rgba.stride tcx tcy rightMost bottomMost
                tcy 0 f₆ rgba.pix with
            | .error e => .error e
            | .ok (pix₁, f₇) => .ok ({ rgba with pix := pix₁ }, f₇)

/-- loadLayer (xcf.go lines 269-341): seek to the layer, read its 12-byte
header, require an RGB format (rgbAlpha or rgbNoAlpha), read the name
string, the property sequence, the pixel and (unused) mask pointers, and
the image data. -/
def loadLayer (f : File) (offset : Nat) : Except XcfErr (Layer × File) :=
  let f₀ := seekTo f offset
  match readN f₀ 12 with
  | none => .error .layerHeaderRead
  | some (lhb, f₁) =>
    let lw := u32At lhb 0
    let lh := u32At lhb 4
    let fmt := u32At lhb 8
    if ¬(fmt = 1 ∨ fmt = 0) then .error .badLayerFormat
    else
      match readString f₁ with
      | none => .error .stringRead
      | some (name, f₂) =>
        match readLayerProps f₂ initLayerPropState with
        | none => .error .layerPropsRead
        | some (st, f₃) =>
          match readU32 f₃ with
          | none => .error .pixelPtrRead
          | some (pixelPointer, f₄) =>
            match readU32 f₄ with
            | none => .error .maskPtrRead
            | some (_, f₅) =>
              match readImageData f₅ lw lh fmt st.x st.y pixelPointer with
              | .error e => .error e
              | .ok (img, f₆) => .ok (⟨img, name, st.visible, st.opacity⟩, f₆)

/-- The canvas-level property loop of Decode (xcf.go lines 94-131): the end
marker stops it; the color map is skipped by 3*colorCount bytes computed in
uint32 from the leading count, not by the (unreliable) declared length; the
compression byte must be 1 (RLE); everything else is skipped by declared
length.  At the unknown-property arm a failed skip assigns finalErr but the
Go code does NOT return (line 127-129), so the loop continues; the failed
io.CopyN has consumed everything that remained, so the cursor moves to the
end of the data. -/
def readCanvasPropsAux : Nat → File → Except XcfErr File
  | 0, _ => .error .outOfFuel
  | fuel + 1, f =>
    match readN f 8 with
    | none => .error .propHeaderRead
    | some (hb, f₁) =>
      let magic := u32At hb 0
      let length := u32At hb 4
      if magic = 0 then .ok f₁
      else if magic = 1 then
        match readU32 f₁ with
        | none => .error .colormapCountRead
        | some (colorCount, f₂) =>
          let skip := (3 * colorCount) % 4294967296
          if f₂.pos + skip ≤ f₂.data.length then
            readCanvasPropsAux fuel ⟨f₂.data, f₂.pos + skip⟩
          else .error .colormapSkip
      else if magic = 17 then
        match readU8 f₁ with
        | none => .error .compressionRead
        | some (compression, f₂) =>
          if compression = 1 then readCanvasPropsAux fuel f₂
          else .error .badCompression
      else
        if f₁.pos + length ≤ f₁.data.length then
          readCanvasPropsAux fuel ⟨f₁.data, f₁.pos + length⟩
        else
          readCanvasPropsAux fuel ⟨f₁.data, f₁.data.length⟩

def readCanvasProps (f : File) : Except XcfErr File :=
  readCanvasPropsAux (f.data.length + 1) f

/-- The layer pointer loop of Decode (xcf.go lines 134-142).  The
binary.Read error is IGNORED by the Go code: on a failed read ptr keeps its
previous value, so a failure before the first pointer leaves ptr at its
initial 0 and cleanly ends the (empty) list, while a failure after a
non-zero pointer makes the loop spin forever (modelled as none /
.diverge). -/
def readLayerPointersAux : Nat → File → Bool → Option (List Nat × File)
  | 0, _, _ => none
  | fuel + 1, f, first =>
    match readU32 f with
    | none => if first then some ([], f) else none
    | some (p, f₁) =>
      if p = 0 then some ([], f₁)
      else
        match readLayerPointersAux fuel f₁ false with
        | none => none
        | some (ps, f₂) => some (p :: ps, f₂)

/-- The layer loading loop of Decode (xcf.go lines 144-152): layers are
loaded in pointer order, any failure aborts. -/
def loadLayers : File → List Nat → Except XcfErr (List Layer × File)
  | f, [] => .ok ([], f)
  | f, p :: ps =>
    match loadLayer f p with
    | .error e => .error e
    | .ok (layer, f₁) =>
      match loadLayers f₁ ps with
      | .error e => .error e
      | .ok (layers, f₂) => .ok (layer :: layers, f₂)

def gimpMagicID : List Nat := [103, 105, 109, 112, 32, 120, 99, 102, 32]

def versionTag : List Nat := [102, 105, 108, 101]

/-- Decode (xcf.go lines 67-159) over an in-memory byte stream: the 26-byte
file header (9-byte magic, 4-byte version plus terminator, width, height,
color format), the canvas properties, the layer pointer list, then each
layer; the Canvas gets the header's width and height and the loaded layers
in pointer order. -/
def xcfDecode (data : List Nat) : Except XcfErr Canvas :=
  match readN ⟨data, 0⟩ 26 with
  | none => .error .headerRead
  | some (hb, f₁) =>
    let magic := hb.take 9
    let version := (hb.drop 9).take 4
    let width := u32At hb 14
    let height := u32At hb 18
    let colorFormat := u32At hb 22
    if magic ≠ gimpMagicID then .error .badMagic
    else if version ≠ versionTag then .error .badVersion
    else if colorFormat ≠ 0 then .error .badColorFormat
    else
      match readCanvasProps f₁ with
      | .error e => .error e
      | .ok f₂ =>
        match readLayerPointersAux (f₂.data.length + 1) f₂ true with
        | none => .error .diverge
        | some (layerPointers, f₃) =>
          match loadLayers f₃ layerPointers with
          | .error e => .error e
          | .ok (layers, _) => .ok ⟨width, height, layers⟩

/-- GetLayerByName (xcf.go lines 32-39): scan the Layers slice in order and
return the first layer whose name matches; none when absent.  The function
reads the canvas and does not modify it. -/
def getLayerByNameLoop : List Layer → List Nat → Option Layer
  | [], _ => none
  | l :: ls, name => if l.Name = name then some l else getLayerByNameLoop ls name

def Canvas.GetLayerByName (c : Canvas) (name : List Nat) : Option Layer :=
  getLayerByNameLoop c.Layers name

/-! ### Claim C10 : GetLayerByName -/

def defaultLayer : Layer := ⟨mkRGBA 0 0 0 0, [], true, 0⟩

theorem getLayerByNameLoop_none :
    ∀ (ls : List Layer) (name : List Nat),
      (getLayerByNameLoop ls name = none ↔ ∀ l ∈ ls, l.Name ≠ name) := by
  intro ls
  induction ls with
  | nil => intro name; simp [getLayerByNameLoop]
  | cons hd tl ih =>
    intro name
    rw [getLayerByNameLoop]
    by_cases h : hd.Name = name
    · rw [if_pos h]
      simp only [List.mem_cons]
      constructor
      · intro hfalse; exact absurd hfalse (by simp)
      · intro hall; exact absurd h (hall hd (Or.inl rfl))
    · rw [if_neg h]
      rw [ih name]
      simp only [List.mem_cons]
      constructor
      · intro hall l hl
        rcases hl with rfl | hl
        · exact h
        · exact hall l hl
      · intro hall l hl
        exact hall l (Or.inr hl)

theorem getLayerByNameLoop_some :
    ∀ (ls : List Layer) (name : List Nat) (l : Layer),
      getLayerByNameLoop ls name = some l →
      l.Name = name ∧ ∃ i, i < ls.length ∧ ls.getD i defaultLayer = l ∧
        ∀ j, j < i → (ls.getD j defaultLayer).Name ≠ name := by
  intro ls
  induction ls with
  | nil => intro name l h; simp [getLayerByNameLoop] at h
  | cons hd tl ih =>
    intro name l h
    rw [getLayerByNameLoop] at h
    by_cases hh : hd.Name = name
    · rw [if_pos hh] at h
      simp only [Option.some.injEq] at h
      subst h
      exact ⟨hh, 0, by simp, by simp, fun j hj => absurd hj (by omega)⟩
    · rw [if_neg hh] at h
      obtain ⟨hname, i, hi, hget, hfirst⟩ := ih name l h
      refine ⟨hname, i + 1, by simp; omega, by simpa using hget, ?_⟩
      intro j hj
      cases j with
      | zero => simpa using hh
      | succ j' => simpa using hfirst j' (by omega)

/-- C10: GetLayerByName returns none exactly when no layer has the given
name, and when it returns a layer that layer has the name and is the one at
the LOWEST index whose name matches (every earlier layer's name differs);
the canvas is a read-only input of the pure function. -/
theorem claim_C10_get_layer_by_name :
    (∀ (c : Canvas) (name : List Nat),
       (c.GetLayerByName name = none ↔ ∀ l ∈ c.Layers, l.Name ≠ name))
  ∧ (∀ (c : Canvas) (name : List Nat) (l : Layer), c.GetLayerByName name = some l →
       l.Name = name ∧ ∃ i, i < c.Layers.length ∧
         c.Layers.getD i defaultLayer = l ∧
         ∀ j, j < i → (c.Layers.getD j defaultLayer).Name ≠ name) := by
  constructor
  · intro c name
    exact getLayerByNameLoop_none c.Layers name
  · intro c name l h
    exact getLayerByNameLoop_some c.Layers name l h

/-- Witness for C10: a two-layer canvas where the second layer matches, and
a miss. -/
theorem claim_C10_get_layer_by_name_witness :
    ((Canvas.mk 9 9 [⟨mkRGBA 0 0 0 0, [65], true, 7⟩, ⟨mkRGBA 0 0 0 0, [66], false, 8⟩]
        |>.GetLayerByName [67]) = none ↔
      ∀ l ∈ [Layer.mk (mkRGBA 0 0 0 0) [65] true 7, Layer.mk (mkRGBA 0 0 0 0) [66] false 8],
        l.Name ≠ [67]) ∧
    ((Layer.mk (mkRGBA 0 0 0 0) [66] false 8).Name = [66] ∧
      ∃ i, i < (Canvas.mk 9 9 [⟨mkRGBA 0 0 0 0, [65], true, 7⟩,
          ⟨mkRGBA 0 0 0 0, [66], false, 8⟩]).Layers.length ∧
        (Canvas.mk 9 9 [⟨mkRGBA 0 0 0 0, [65], true, 7⟩,
          ⟨mkRGBA 0 0 0 0, [66], false, 8⟩]).Layers.getD i defaultLayer =
          Layer.mk (mkRGBA 0 0 0 0) [66] false 8 ∧
        ∀ j, j < i →
          ((Canvas.mk 9 9 [⟨mkRGBA 0 0 0 0, [65], true, 7⟩,
            ⟨mkRGBA 0 0 0 0, [66], false, 8⟩]).Layers.getD j defaultLayer).Name ≠ [66]) :=
  ⟨claim_C10_get_layer_by_name.1
     (Canvas.mk 9 9 [⟨mkRGBA 0 0 0 0, [65], true, 7⟩, ⟨mkRGBA 0 0 0 0, [66], false, 8⟩])
     [67],
   claim_C10_get_layer_by_name.2
     (Canvas.mk 9 9 [⟨mkRGBA 0 0 0 0, [65], true, 7⟩, ⟨mkRGBA 0 0 0 0, [66], false, 8⟩])
     [66] (Layer.mk (mkRGBA 0 0 0 0) [66] false 8) rfl⟩

/-! ### Claim C2 : error propagation in Decode -/

/-- Projection of a decode outcome to (width, height, layer count). -/
def decodeSummary (data : List Nat) : Except XcfErr (Nat × Nat × Nat) :=
  (xcfDecode data).map (fun c => (c.Width, c.Height, c.Layers.length))

/-- A valid header (magic, version "file", width 1, height 1, RGB) and an
empty canvas property section, with the stream ending before any layer
pointer byte: the pointer read fails. -/
def truncatedAtPointersXcf : List Nat :=
  gimpMagicID ++ versionTag ++ [0] ++ u32bytes 1 ++ u32bytes 1 ++ u32bytes 0 ++
  u32bytes 0 ++ u32bytes 0

/-- A valid header followed by an unknown canvas property with declared
length 100 but only 2 bytes remaining: the skip fails. -/
def truncatedSkipXcf : List Nat :=
  gimpMagicID ++ versionTag ++ [0] ++ u32bytes 1 ++ u32bytes 1 ++ u32bytes 0 ++
  u32bytes 99 ++ u32bytes 100 ++ [1, 2]

/-- C2 (code bug): two stream errors inside Decode are NOT propagated as the
claim (and the spec's propagation rule) require.  (1) A read failure at the
very first layer pointer (ignored binary.Read error, xcf.go line 137) leaves
ptr = 0, the loop breaks, and Decode returns a SUCCESSFUL canvas (1×1, zero
layers) instead of the stream error.  (2) A failed skip of an unknown
canvas-level property assigns finalErr without returning (xcf.go lines
127-129), so the loop continues and Decode later fails with a different
error — the next property-header read — rather than aborting with the skip
failure. -/
theorem claim_C2_error_swallowed :
    decodeSummary truncatedAtPointersXcf = .ok (1, 1, 0) ∧
    decodeSummary truncatedSkipXcf = .error .propHeaderRead := by
  exact ⟨rfl, rfl⟩

/-! ### Claim C9 : canvas shape of a successful decode -/

theorem readN_data {f : File} {n : Nat} {bs : List Nat} {f' : File}
    (h : readN f n = some (bs, f')) : f'.data = f.data := by
  rw [readN] at h
  split_ifs at h with h1 h2
  · simp only [Option.some.injEq, Prod.mk.injEq] at h
    rw [← h.2]
  · simp only [Option.some.injEq, Prod.mk.injEq] at h
    rw [← h.2]

theorem readU8_data {f : File} {v : Nat} {f' : File}
    (h : readU8 f = some (v, f')) : f'.data = f.data := by
  rw [readU8] at h
  cases hr : readN f 1 with
  | none => rw [hr] at h; simp at h
  | some p =>
    rw [hr] at h
    simp only [Option.map_some', Option.some.injEq] at h
    have hpd : p.2.data = f.data :=
      readN_data (show readN f 1 = some (p.1, p.2) from by rw [hr])
    have h2 : p.2 = f' := congrArg Prod.snd h
    rw [← h2]
    exact hpd

theorem readU32_data {f : File} {v : Nat} {f' : File}
    (h : readU32 f = some (v, f')) : f'.data = f.data := by
  rw [readU32] at h
  cases hr : readN f 4 with
  | none => rw [hr] at h; simp at h
  | some p =>
    rw [hr] at h
    simp only [Option.map_some', Option.some.injEq] at h
    have hpd : p.2.data = f.data :=
      readN_data (show readN f 4 = some (p.1, p.2) from by rw [hr])
    have h2 : p.2 = f' := congrArg Prod.snd h
    rw [← h2]
    exact hpd

theorem readString_data {f : File} {s : List Nat} {f' : File}
    (h : readString f = some (s, f')) : f'.data = f.data := by
  rw [readString] at h
  cases hr : readU32 f with
  | none => rw [hr] at h; simp at h
  | some p =>
    obtain ⟨len, f₁⟩ := p
    rw [hr] at h
    simp only at h
    have hd1 : f₁.data = f.data := readU32_data hr
    split_ifs at h with h0
    · simp only [Option.some.injEq, Prod.mk.injEq] at h
      rw [← h.2, hd1]
    · cases hr2 : readN f₁ len with
      | none => rw [hr2] at h; simp at h
      | some p2 =>
        obtain ⟨bs, f₂⟩ := p2
        rw [hr2] at h
        simp only [Option.some.injEq, Prod.mk.injEq] at h
        rw [← h.2, readN_data hr2, hd1]

theorem readLayerPropsAux_data {fuel : Nat} :
    ∀ {f : File} {st out : LayerPropState} {f' : File},
      readLayerPropsAux fuel f st = some (out, f') → f'.data = f.data := by
  induction fuel with
  | zero => intro f st out f' h; simp [readLayerPropsAux] at h
  | succ fuel ih =>
    intro f st out f' h
    rw [readLayerPropsAux] at h
    cases hr : readN f 8 with
    | none => rw [hr] at h; simp at h
    | some p =>
      obtain ⟨hb, f₁⟩ := p
      rw [hr] at h
      simp only at h
      have hd1 : f₁.data = f.data := readN_data hr
      by_cases m0 : u32At hb 0 = 0
      · rw [if_pos m0] at h
        simp only [Option.some.injEq, Prod.mk.injEq] at h
        rw [← h.2, hd1]
      · rw [if_neg m0] at h
        by_cases m15 : u32At hb 0 = 15
        · rw [if_pos m15] at h
          cases hx : readU32 f₁ with
          | none => rw [hx] at h; simp at h
          | some px =>
            obtain ⟨xv, f₂⟩ := px
            rw [hx] at h
            simp only at h
            cases hy : readU32 f₂ with
            | none => rw [hy] at h; simp at h
            | some py =>
              obtain ⟨yv, f₃⟩ := py
              rw [hy] at h
              simp only at h
              exact (ih h).trans ((readU32_data hy).trans ((readU32_data hx).trans hd1))
        · rw [if_neg m15] at h
          by_cases m8 : u32At hb 0 = 8
          · rw [if_pos m8] at h
            cases hv : readU32 f₁ with
            | none => rw [hv] at h; simp at h
            | some pv =>
              obtain ⟨v, f₂⟩ := pv
              rw [hv] at h
              simp only at h
              exact (ih h).trans ((readU32_data hv).trans hd1)
          · rw [if_neg m8] at h
            by_cases m6 : u32At hb 0 = 6
            · rw [if_pos m6] at h
              cases hv : readU32 f₁ with
              | none => rw [hv] at h; simp at h
              | some pv =>
                obtain ⟨v, f₂⟩ := pv
                rw [hv] at h
                simp only at h
                exact (ih h).trans ((readU32_data hv).trans hd1)
            · rw [if_neg m6] at h
              by_cases hsk : f₁.pos + u32At hb 4 ≤ f₁.data.length
              · rw [if_pos hsk] at h
                exact (ih h).trans hd1
              · rw [if_neg hsk] at h
                simp at h

theorem skipLevelPointers_data {fuel : Nat} :
    ∀ {f f' : File}, skipLevelPointers fuel f = some f' → f'.data = f.data := by
  induction fuel with
  | zero => intro f f' h; simp [skipLevelPointers] at h
  | succ fuel ih =>
    intro f f' h
    rw [skipLevelPointers] at h
    cases hr : readU32 f with
    | none => rw [hr] at h; simp at h
    | some p =>
      obtain ⟨v, f₁⟩ := p
      rw [hr] at h
      simp only at h
      have hd1 : f₁.data = f.data := readU32_data hr
      split_ifs at h with h0
      · simp only [Option.some.injEq] at h
        rw [← h, hd1]
      · exact (ih h).trans hd1

theorem decodeRLEAux_data {fuel : Nat} :
    ∀ {f : File} {d cap : Nat} {acc out : List Nat} {f' : File},
      decodeRLEAux fuel f d cap acc = .ok out f' → f'.data = f.data := by
  induction fuel with
  | zero => intro f d cap acc out f' h; simp [decodeRLEAux] at h
  | succ fuel ih =>
    intro f d cap acc out f' h
    rw [decodeRLEAux] at h
    by_cases h1 : d ≤ acc.length
    · rw [if_pos h1] at h
      injection h with h2 h3
      rw [← h3]
    · rw [if_neg h1] at h
      cases hop : readU8 f with
      | none => rw [hop] at h; simp at h
      | some pop =>
        obtain ⟨op, f₁⟩ := pop
        rw [hop] at h
        simp only at h
        have hd1 : f₁.data = f.data := readU8_data hop
        by_cases c1 : op ≤ 126
        · rw [if_pos c1] at h
          cases hv : readU8 f₁ with
          | none => rw [hv] at h; simp at h
          | some pv =>
            obtain ⟨v, f₂⟩ := pv
            rw [hv] at h
            simp only at h
            by_cases c5 : d < acc.length + (op + 1)
            · rw [if_pos c5] at h; simp at h
            · rw [if_neg c5] at h
              exact (ih h).trans ((readU8_data hv).trans hd1)
        · rw [if_neg c1] at h
          by_cases c2 : op = 127
          · rw [if_pos c2] at h
            cases hv : readN f₁ 3 with
            | none => rw [hv] at h; simp at h
            | some pv =>
              obtain ⟨bs, f₂⟩ := pv
              rw [hv] at h
              simp only at h
              by_cases c5 : d < acc.length + (bs.getD 0 0 * 256 + bs.getD 1 0)
              · rw [if_pos c5] at h; simp at h
              · rw [if_neg c5] at h
                exact (ih h).trans ((readN_data hv).trans hd1)
          · rw [if_neg c2] at h
            by_cases c3 : op = 128
            · rw [if_pos c3] at h
              cases hv : readN f₁ 2 with
              | none => rw [hv] at h; simp at h
              | some pv =>
                obtain ⟨bs, f₂⟩ := pv
                rw [hv] at h
                simp only at h
                by_cases c5 : cap < acc.length + (bs.getD 0 0 * 256 + bs.getD 1 0)
                · rw [if_pos c5] at h; simp at h
                · rw [if_neg c5] at h
                  cases hs : readN f₂ (bs.getD 0 0 * 256 + bs.getD 1 0) with
                  | none => rw [hs] at h; simp at h
                  | some ps2 =>
                    obtain ⟨s, f₃⟩ := ps2
                    rw [hs] at h
                    simp only at h
                    exact (ih h).trans ((readN_data hs).trans ((readN_data hv).trans hd1))
            · rw [if_neg c3] at h
              by_cases c5 : cap < acc.length + (256 - op)
              · rw [if_pos c5] at h; simp at h
              · rw [if_neg c5] at h
                cases hs : readN f₁ (256 - op) with
                | none => rw [hs] at h; simp at h
                | some ps2 =>
                  obtain ⟨s, f₂⟩ := ps2
                  rw [hs] at h
                  simp only at h
                  exact (ih h).trans ((readN_data hs).trans hd1)

theorem doTile_data {f : File} {pix : Nat → Nat} {fmt bpp left top w h stride : Nat}
    {pix' : Nat → Nat} {f' : File}
    (hdo : doTile f pix fmt bpp left top w h stride = .ok (pix', f')) :
    f'.data = f.data := by
  rw [doTile] at hdo
  cases hr : decodeRLE f (w * h * bpp) (64 * 64 * bpp) with
  | ioError => rw [hr] at hdo; simp at hdo
  | panic => rw [hr] at hdo; simp at hdo
  | ok out f₁ =>
    rw [hr] at hdo
    simp only [Except.ok.injEq, Prod.mk.injEq] at hdo
    rw [← hdo.2]
    exact decodeRLEAux_data hr

theorem tileRowLoop_data {fmt bpp stride tcx rightMost hRow tileY : Nat} :
    ∀ {cols tileX : Nat} {f : File} {pix pix' : Nat → Nat} {f' : File},
      tileRowLoop fmt bpp stride tcx rightMost hRow tileY cols tileX f pix =
        .ok (pix', f') → f'.data = f.data := by
  intro cols
  induction cols with
  | zero =>
    intro tileX f pix pix' f' h
    rw [tileRowLoop] at h
    simp only [Except.ok.injEq, Prod.mk.injEq] at h
    rw [← h.2]
  | succ cols ih =>
    intro tileX f pix pix' f' h
    rw [tileRowLoop] at h
    cases hdo : doTile f pix fmt bpp (tileX * 64) (tileY * 64)
        (if tileX = tcx - 1 then rightMost else 64) hRow stride with
    | error e => rw [hdo] at h; simp at h
    | ok p =>
      obtain ⟨pix₁, f₁⟩ := p
      rw [hdo] at h
      simp only at h
      exact (ih h).trans (doTile_data hdo)

theorem tileRowsLoop_data {fmt bpp stride tcx tcy rightMost bottomMost : Nat} :
    ∀ {rows tileY : Nat} {f : File} {pix pix' : Nat → Nat} {f' : File},
      tileRowsLoop fmt bpp stride tcx tcy rightMost bottomMost rows tileY f pix =
        .ok (pix', f') → f'.data = f.data := by
  intro rows
  induction rows with
  | zero =>
    intro tileY f pix pix' f' h
    rw [tileRowsLoop] at h
    simp only [Except.ok.injEq, Prod.mk.injEq] at h
    rw [← h.2]
  | succ rows ih =>
    intro tileY f pix pix' f' h
    rw [tileRowsLoop] at h
    cases hrow : tileRowLoop fmt bpp stride tcx rightMost
        (if tileY = tcy - 1 then bottomMost else 64) tileY tcx 0 f pix with
    | error e => rw [hrow] at h; simp at h
    | ok p =>
      obtain ⟨pix₁, f₁⟩ := p
      rw [hrow] at h
      simp only at h
      exact (ih h).trans (tileRowLoop_data hrow)

theorem readImageData_data {f : File} {lw lh fmt : Nat} {layerX layerY : Int}
    {offset : Nat} {img : RGBAImage} {f' : File}
    (h : readImageData f lw lh fmt layerX layerY offset = .ok (img, f')) :
    f'.data = f.data := by
  rw [readImageData] at h
  cases h16 : readN (seekTo f offset) 16 with
  | none => rw [h16] at h; simp at h
  | some p =>
    obtain ⟨hb, f₁⟩ := p
    rw [h16] at h
    simp only at h
    have hd1 : f₁.data = f.data := readN_data (f := seekTo f offset) h16
    cases hsk : skipLevelPointers (f₁.data.length + 1) f₁ with
    | none => rw [hsk] at h; simp at h
    | some f₂ =>
      rw [hsk] at h
      simp only at h
      have hd2 : f₂.data = f₁.data := skipLevelPointers_data hsk
      cases hl1 : readU32 (seekTo f₂ (u32At hb 12)) with
      | none => rw [hl1] at h; simp at h
      | some p1 =>
        obtain ⟨_, f₄⟩ := p1
        rw [hl1] at h
        simp only at h
        have hd4 : f₄.data = f₂.data := readU32_data (f := seekTo f₂ (u32At hb 12)) hl1
        cases hl2 : readU32 f₄ with
        | none => rw [hl2] at h; simp at h
        | some p2 =>
          obtain ⟨_, f₅⟩ := p2
          rw [hl2] at h
          simp only at h
          have hd5 : f₅.data = f₄.data := readU32_data hl2
          cases ht : readN f₅ (4 * (tileCountX lw * tileCountY lh + 1)) with
          | none => rw [ht] at h; simp at h
          | some p3 =>
            obtain ⟨_, f₆⟩ := p3
            rw [ht] at h
            simp only at h
            have hd6 : f₆.data = f₅.data := readN_data ht
            cases hloop : tileRowsLoop fmt (u32At hb 8) (mkRGBA layerX layerY lw lh).stride
                (tileCountX lw) (tileCountY lh) (rightMostTileWidth lw)
                (bottomMostTileHeight lh) (tileCountY lh) 0 f₆
                (mkRGBA layerX layerY lw lh).pix with
            | error e => rw [hloop] at h; simp at h
            | ok p4 =>
              obtain ⟨pix₁, f₇⟩ := p4
              rw [hloop] at h
              simp only [Except.ok.injEq, Prod.mk.injEq] at h
              rw [← h.2]
              exact (tileRowsLoop_data hloop).trans
                (hd6.trans (hd5.trans (hd4.trans (hd2.trans hd1))))

theorem loadLayer_data {f : File} {offset : Nat} {layer : Layer} {f' : File}
    (h : loadLayer f offset = .ok (layer, f')) : f'.data = f.data := by
  rw [loadLayer] at h
  cases h12 : readN (seekTo f offset) 12 with
  | none => rw [h12] at h; simp at h
  | some p =>
    obtain ⟨lhb, f₁⟩ := p
    rw [h12] at h
    simp only at h
    have hd1 : f₁.data = f.data := readN_data (f := seekTo f offset) h12
    split_ifs at h with hfmt
    cases hname : readString f₁ with
      | none => rw [hname] at h; simp at h
      | some p1 =>
        obtain ⟨name, f₂⟩ := p1
        rw [hname] at h
        simp only at h
        have hd2 : f₂.data = f₁.data := readString_data hname
        cases hprops : readLayerProps f₂ initLayerPropState with
        | none => rw [hprops] at h; simp at h
        | some p2 =>
          obtain ⟨st, f₃⟩ := p2
          rw [hprops] at h
          simp only at h
          have hd3 : f₃.data = f₂.data := readLayerPropsAux_data hprops
          cases hpp : readU32 f₃ with
          | none => rw [hpp] at h; simp at h
          | some p3 =>
            obtain ⟨pixelPointer, f₄⟩ := p3
            rw [hpp] at h
            simp only at h
            have hd4 : f₄.data = f₃.data := readU32_data hpp
            cases hmp : readU32 f₄ with
            | none => rw [hmp] at h; simp at h
            | some p4 =>
              obtain ⟨_, f₅⟩ := p4
              rw [hmp] at h
              simp only at h
              have hd5 : f₅.data = f₄.data := readU32_data hmp
              cases himg : readImageData f₅ (u32At lhb 0) (u32At lhb 4) (u32At lhb 8)
                  st.x st.y pixelPointer with
              | error e => rw [himg] at h; simp at h
              | ok p5 =>
                obtain ⟨img, f₆⟩ := p5
                rw [himg] at h
                simp only [Except.ok.injEq, Prod.mk.injEq] at h
                rw [← h.2]
                exact (readImageData_data himg).trans
                  (hd5.trans (hd4.trans (hd3.trans (hd2.trans hd1))))

theorem readCanvasPropsAux_data {fuel : Nat} :
    ∀ {f f' : File}, readCanvasPropsAux fuel f = .ok f' → f'.data = f.data := by
  induction fuel with
  | zero => intro f f' h; simp [readCanvasPropsAux] at h
  | succ fuel ih =>
    intro f f' h
    rw [readCanvasPropsAux] at h
    cases hr : readN f 8 with
    | none => rw [hr] at h; simp at h
    | some p =>
      obtain ⟨hb, f₁⟩ := p
      rw [hr] at h
      simp only at h
      have hd1 : f₁.data = f.data := readN_data hr
      by_cases m0 : u32At hb 0 = 0
      · rw [if_pos m0] at h
        simp only [Except.ok.injEq] at h
        rw [← h, hd1]
      · rw [if_neg m0] at h
        by_cases m1 : u32At hb 0 = 1
        · rw [if_pos m1] at h
          cases hcc : readU32 f₁ with
          | none => rw [hcc] at h; simp at h
          | some pcc =>
            obtain ⟨colorCount, f₂⟩ := pcc
            rw [hcc] at h
            simp only at h
            by_cases hskip : f₂.pos + 3 * colorCount % 4294967296 ≤ f₂.data.length
            · rw [if_pos hskip] at h
              exact (ih h).trans ((readU32_data hcc).trans hd1)
            · rw [if_neg hskip] at h
              simp at h
        · rw [if_neg m1] at h
          by_cases m17 : u32At hb 0 = 17
          · rw [if_pos m17] at h
            cases hcp : readU8 f₁ with
            | none => rw [hcp] at h; simp at h
            | some pcp =>
              obtain ⟨compression, f₂⟩ := pcp
              rw [hcp] at h
              simp only at h
              by_cases hc1 : compression = 1
              · rw [if_pos hc1] at h
                exact (ih h).trans ((readU8_data hcp).trans hd1)
              · rw [if_neg hc1] at h
                simp at h
          · rw [if_neg m17] at h
            by_cases hsk : f₁.pos + u32At hb 4 ≤ f₁.data.length
            · rw [if_pos hsk] at h
              exact (ih h).trans hd1
            · rw [if_neg hsk] at h
              exact (ih h).trans hd1

theorem readLayerPointersAux_spec {fuel : Nat} :
    ∀ {f : File} {first : Bool} {ps : List Nat} {f' : File},
      readLayerPointersAux fuel f first = some (ps, f') →
      (∀ p ∈ ps, p ≠ 0) ∧ f'.data = f.data := by
  induction fuel with
  | zero => intro f first ps f' h; simp [readLayerPointersAux] at h
  | succ fuel ih =>
    intro f first ps f' h
    rw [readLayerPointersAux] at h
    cases hr : readU32 f with
    | none =>
      rw [hr] at h
      split_ifs at h with hf
      simp only [Option.some.injEq, Prod.mk.injEq] at h
      refine ⟨?_, by rw [← h.2]⟩
      intro q hq
      rw [← h.1] at hq
      simp at hq
    | some p =>
      obtain ⟨v, f₁⟩ := p
      rw [hr] at h
      simp only at h
      by_cases hz : v = 0
      · rw [if_pos hz] at h
        simp only [Option.some.injEq, Prod.mk.injEq] at h
        refine ⟨?_, by rw [← h.2]; exact readU32_data hr⟩
        intro q hq
        rw [← h.1] at hq
        simp at hq
      · rw [if_neg hz] at h
        cases hrec : readLayerPointersAux fuel f₁ false with
        | none => rw [hrec] at h; simp at h
        | some prec =>
          obtain ⟨ps', f₂⟩ := prec
          rw [hrec] at h
          simp only [Option.some.injEq, Prod.mk.injEq] at h
          obtain ⟨hall, hdata⟩ := ih hrec
          refine ⟨?_, by rw [← h.2]; exact hdata.trans (readU32_data hr)⟩
          intro q hq
          rw [← h.1] at hq
          rcases List.mem_cons.mp hq with rfl | hq2
          · exact hz
          · exact hall q hq2

/-- loadLayer seeks to the absolute offset before reading anything, so its
result does not depend on the incoming cursor position. -/
theorem loadLayer_pos_irrel (f : File) (p : Nat) :
    loadLayer f p = loadLayer ⟨f.data, 0⟩ p := rfl

theorem loadLayers_spec :
    ∀ (ps : List Nat) (f : File) (ls : List Layer) (f' : File),
      loadLayers f ps = .ok (ls, f') →
      ls.length = ps.length ∧
      ∀ i, i < ps.length → ∃ fo : File,
        loadLayer ⟨f.data, 0⟩ (ps.getD i 0) = .ok (ls.getD i defaultLayer, fo) := by
  intro ps
  induction ps with
  | nil =>
    intro f ls f' h
    rw [loadLayers] at h
    simp only [Except.ok.injEq, Prod.mk.injEq] at h
    refine ⟨by rw [← h.1]; rfl, ?_⟩
    intro i hi
    simp at hi
  | cons p ps ih =>
    intro f ls f' h
    rw [loadLayers] at h
    cases h1 : loadLayer f p with
    | error e => rw [h1] at h; simp at h
    | ok pr =>
      obtain ⟨layer, f₁⟩ := pr
      rw [h1] at h
      simp only at h
      cases h2 : loadLayers f₁ ps with
      | error e => rw [h2] at h; simp at h
      | ok pr2 =>
        obtain ⟨layers, f₂⟩ := pr2
        rw [h2] at h
        simp only [Except.ok.injEq, Prod.mk.injEq] at h
        obtain ⟨hls, hf⟩ := h
        obtain ⟨hlen, hspec⟩ := ih f₁ layers f₂ h2
        rw [← hls]
        constructor
        · simp [hlen]
        · intro i hi
          cases i with
          | zero =>
            refine ⟨f₁, ?_⟩
            simp only [List.getD_cons_zero]
            rw [← loadLayer_pos_irrel]
            exact h1
          | succ i' =>
            obtain ⟨fo, hfo⟩ := hspec i' (by simp at hi; omega)
            refine ⟨fo, ?_⟩
            simp only [List.getD_cons_succ]
            rw [show (⟨f.data, 0⟩ : File) = ⟨f₁.data, 0⟩ from by rw [loadLayer_data h1]]
            exact hfo

/-- A concrete 112-byte single-layer XCF stream: 1x1 RGBA canvas, one layer
at offset 42 with an empty name, no properties, RLE-compressed pixel data
(opcode 3 = run of 4 copies of byte 200 for the single alpha-bearing
plane split into 4 planes of 1 byte each). -/
def demoXcf : List Nat :=
  gimpMagicID ++ versionTag ++ [0] ++ u32bytes 1 ++ u32bytes 1 ++ u32bytes 0 ++
  u32bytes 0 ++ u32bytes 0 ++
  u32bytes 42 ++ u32bytes 0 ++
  u32bytes 1 ++ u32bytes 1 ++ u32bytes 1 ++
  u32bytes 0 ++
  u32bytes 0 ++ u32bytes 0 ++
  u32bytes 74 ++
  u32bytes 0 ++
  u32bytes 1 ++ u32bytes 1 ++ u32bytes 4 ++ u32bytes 94 ++
  u32bytes 0 ++
  u32bytes 1 ++ u32bytes 1 ++
  u32bytes 106 ++ u32bytes 0 ++
  [3, 200]

/-- The canvas decoded from demoXcf (total function for use in closed
statements; the error arm is never taken). -/
def demoCanvas : Canvas :=
  match xcfDecode demoXcf with
  | .ok c => c
  | .error _ => ⟨0, 0, []⟩

/-- C9: for every successful decode, the canvas width and height are the
big-endian uint32s at header offsets 14 and 18, and the Layers slice has
exactly one layer per entry of the layer offset list (all of which are
non-zero), in the same order, each obtained by loadLayer at that offset. -/
theorem claim_C9_canvas_shape :
    ∀ (data : List Nat) (c : Canvas), xcfDecode data = .ok c →
      ∃ (hb : List Nat) (f₁ f₂ : File) (ps : List Nat) (f₃ : File),
        readN ⟨data, 0⟩ 26 = some (hb, f₁) ∧
        c.Width = u32At hb 14 ∧ c.Height = u32At hb 18 ∧
        readCanvasProps f₁ = .ok f₂ ∧
        readLayerPointersAux (f₂.data.length + 1) f₂ true = some (ps, f₃) ∧
        (∀ p ∈ ps, p ≠ 0) ∧
        c.Layers.length = ps.length ∧
        ∀ i, i < ps.length → ∃ fo : File,
          loadLayer ⟨data, 0⟩ (ps.getD i 0) = .ok (c.Layers.getD i defaultLayer, fo) := by
  intro data c h
  rw [xcfDecode] at h
  cases h26 : readN ⟨data, 0⟩ 26 with
  | none => rw [h26] at h; simp at h
  | some p =>
    obtain ⟨hb, f₁⟩ := p
    rw [h26] at h
    simp only at h
    by_cases hm : hb.take 9 ≠ gimpMagicID
    · rw [if_pos hm] at h; simp at h
    · rw [if_neg hm] at h
      by_cases hv : (hb.drop 9).take 4 ≠ versionTag
      · rw [if_pos hv] at h; simp at h
      · rw [if_neg hv] at h
        by_cases hcf : u32At hb 22 ≠ 0
        · rw [if_pos hcf] at h; simp at h
        · rw [if_neg hcf] at h
          cases hcp : readCanvasProps f₁ with
          | error e => rw [hcp] at h; simp at h
          | ok f₂ =>
            rw [hcp] at h
            simp only at h
            cases hlp : readLayerPointersAux (f₂.data.length + 1) f₂ true with
            | none => rw [hlp] at h; simp at h
            | some plp =>
              obtain ⟨ps, f₃⟩ := plp
              rw [hlp] at h
              simp only at h
              cases hll : loadLayers f₃ ps with
              | error e => rw [hll] at h; simp at h
              | ok pll =>
                obtain ⟨layers, f₄⟩ := pll
                rw [hll] at h
                simp only [Except.ok.injEq] at h
                obtain ⟨hnz, hf₃d⟩ := readLayerPointersAux_spec hlp
                have hf₁d : f₁.data = data := readN_data h26
                have hf₂d : f₂.data = f₁.data := readCanvasPropsAux_data hcp
                obtain ⟨hlen, hlay⟩ := loadLayers_spec ps f₃ layers f₄ hll
                refine ⟨hb, f₁, f₂, ps, f₃, rfl, ?_, ?_, hcp, hlp, hnz, ?_, ?_⟩
                · rw [← h]
                · rw [← h]
                · rw [← h]; exact hlen
                · intro i hi
                  obtain ⟨fo, hfo⟩ := hlay i hi
                  refine ⟨fo, ?_⟩
                  rw [show (⟨data, 0⟩ : File) = (⟨f₃.data, 0⟩ : File) from by
                    rw [hf₃d, hf₂d, hf₁d], ← h]
                  exact hfo

/-- Witness for C9 at the concrete demoXcf stream, whose decode succeeds. -/
theorem claim_C9_canvas_shape_witness :
    ∃ (hb : List Nat) (f₁ f₂ : File) (ps : List Nat) (f₃ : File),
      readN ⟨demoXcf, 0⟩ 26 = some (hb, f₁) ∧
      demoCanvas.Width = u32At hb 14 ∧ demoCanvas.Height = u32At hb 18 ∧
      readCanvasProps f₁ = .ok f₂ ∧
      readLayerPointersAux (f₂.data.length + 1) f₂ true = some (ps, f₃) ∧
      (∀ p ∈ ps, p ≠ 0) ∧
      demoCanvas.Layers.length = ps.length ∧
      ∀ i, i < ps.length → ∃ fo : File,
        loadLayer ⟨demoXcf, 0⟩ (ps.getD i 0) =
          .ok (demoCanvas.Layers.getD i defaultLayer, fo) :=
  claim_C9_canvas_shape demoXcf demoCanvas rfl
